import Mathlib

/-!
Shallow embedding of the DiscMotion disk-scheduling engine (src/algo.js).

Part 1 of the source (the History Generator) is modelled as explicit state
passing over `GenState`; the global `history` array is the `history` field.
Part 2 (the Stats Calculator, `getAlgorithmStats`) is modelled as a pure
function returning the total seek.  JS `Set`s are modelled as
insertion-ordered duplicate-free lists, which is exactly the iteration
order JS guarantees.  All JS numbers involved are integers, modelled by ℤ.
-/

namespace DiscMotion

/-- Fixed disk upper bound: `window.DISK_MAX = 199` (src/ui.js line 17);
`getAlgorithmStats` uses `window.DISK_MAX || 199`. -/
def DISK_MAX : ℤ := 199

/-- One entry of the history array, as pushed by `addHistoryStep`
(src/algo.js lines 78-85).  `served` models the JS `Set` as an
insertion-ordered duplicate-free list. -/
structure Step where
  head : ℤ
  seek : ℤ
  served : List ℤ
  servedOrder : List ℤ
deriving DecidableEq, Repr

/-- JS `Set.prototype.add`: append if not already present (JS sets keep
insertion order). -/
def setAdd (s : List ℤ) (x : ℤ) : List ℤ := if x ∈ s then s else s ++ [x]

/-- `new Set(l)` (and `[...new Set(l)]`): the distinct values of `l` in
first-occurrence order, built exactly as JS does — start empty and `add`
each element in turn. -/
def toSetList (l : List ℤ) : List ℤ := l.foldl setAdd []

/-- The mutable locals of one history-generating walk, plus the global
`history` array. -/
structure GenState where
  head : ℤ
  seek : ℤ
  served : List ℤ
  servedOrder : List ℤ
  history : List Step
deriving Repr

/-- The `Step` recording the current state of the walk. -/
def snap (st : GenState) : Step :=
  ⟨st.head, st.seek, st.served, st.servedOrder⟩

/-- `addHistoryStep(currentHead, totalSeek, served, servedOrder)`. -/
def pushStep (st : GenState) : GenState :=
  { st with history := st.history ++ [snap st] }

/-- `totalSeek += Math.abs(t - currentHead); currentHead = t;` -/
def goTo (st : GenState) (t : ℤ) : GenState :=
  { st with seek := st.seek + |t - st.head|, head := t }

/-- `served.add(r); servedOrder.push(r);` -/
def markServed (st : GenState) (r : ℤ) : GenState :=
  { st with served := setAdd st.served r, servedOrder := st.servedOrder ++ [r] }

/-- The common loop body of the SCAN-family walks: move to `r`, serve it,
record a history step. -/
def serveStep (st : GenState) (r : ℤ) : GenState :=
  pushStep (markServed (goTo st r) r)

/-- `for (const req of l) { ...serve... }` -/
def serveFold (st : GenState) (l : List ℤ) : GenState :=
  l.foldl serveStep st

/-- `for (const req of l) { if (req === start) continue; ...serve... }` -/
def serveFoldSkip (start : ℤ) (st : GenState) (l : List ℤ) : GenState :=
  l.foldl (fun s r => if r = start then s else serveStep s r) st

/-- `calculateFcfsPath` (src/algo.js lines 92-108).  `origSet` is the
global `originalRequestSet`, which `calculateSimulationHistory` sets to
`new Set(requests)` before dispatching to FCFS. -/
def calculateFcfsPath (origSet : List ℤ) (requests : List ℤ) (startHead : ℤ)
    (hist : List Step) : List Step :=
  let st : GenState := ⟨startHead, 0, [], [], hist⟩
  let st := requests.foldl (fun s req =>
    let s := goTo s req
    let s := if req ∈ origSet then markServed s req else s
    pushStep s) st
  st.history

/-- The inner selection loop of SSTF (src/algo.js lines 130-139 and, with
identical text, lines 477-485 of `getAlgorithmStats`):
`shortestDist = Infinity; nextReq = -1; for (const req of remaining) if
(dist < shortestDist) update;`.  `none` plays the role of the Infinity
initial value; a request replaces the candidate only on strictly smaller
distance, so the first minimizer in iteration order wins. -/
def sstfPick (head : ℤ) (l : List ℤ) : Option (ℤ × ℤ) :=
  l.foldl (fun acc req =>
    match acc with
    | none => some (|req - head|, req)
    | some dr => if |req - head| < dr.1 then some (|req - head|, req) else some dr)
    none

theorem sstfPick_aux_mem (head : ℤ) :
    ∀ (l : List ℤ) (acc : Option (ℤ × ℤ)) (dr : ℤ × ℤ),
    (l.foldl (fun acc req =>
      match acc with
      | none => some (|req - head|, req)
      | some dr => if |req - head| < dr.1 then some (|req - head|, req) else some dr)
      acc) = some dr → acc = some dr ∨ dr.2 ∈ l := by
  intro l
  induction l with
  | nil => intro acc dr h; exact Or.inl h
  | cons x xs ih =>
    intro acc dr h
    simp only [List.foldl_cons] at h
    rcases ih _ dr h with h1 | h1
    · match acc, h1 with
      | none, h1 =>
          right
          dsimp only at h1
          cases h1
          exact List.mem_cons_self _ _
      | some d, h1 =>
          dsimp only at h1
          by_cases hlt : |x - head| < d.1
          · rw [if_pos hlt] at h1
            right
            cases h1
            exact List.mem_cons_self _ _
          · rw [if_neg hlt] at h1
            exact Or.inl h1
    · exact Or.inr (List.mem_cons_of_mem _ h1)

theorem sstfPick_mem {head : ℤ} {l : List ℤ} {dr : ℤ × ℤ}
    (h : sstfPick head l = some dr) : dr.2 ∈ l := by
  rcases sstfPick_aux_mem head l none dr h with h1 | h1
  · cases h1
  · exact h1

/-- The SSTF `while (remaining.size > 0)` loop of the History Generator
(src/algo.js lines 129-148), as structural recursion on a fuel bound.
Each iteration deletes the selected request from `remaining`, so fuel
`remaining.length` runs the loop to completion (`sstfPick` returns `none`
exactly on the empty set). -/
def sstfLoop : Nat → GenState → List ℤ → GenState
  | 0, st, _ => st
  | fuel + 1, st, remaining =>
      match sstfPick st.head remaining with
      | none => st
      | some dr =>
          sstfLoop fuel
            (pushStep (markServed { st with seek := st.seek + dr.1, head := dr.2 } dr.2))
            (remaining.erase dr.2)

/-- `calculateSstfPath` (src/algo.js lines 115-149). -/
def calculateSstfPath (requests : List ℤ) (startHead : ℤ)
    (hist : List Step) : List Step :=
  let st : GenState := ⟨startHead, 0, [], [], hist⟩
  let remaining := toSetList requests
  let (st, remaining) :=
    if startHead ∈ remaining then
      (pushStep (markServed st startHead), remaining.erase startHead)
    else (st, remaining)
  (sstfLoop remaining.length st remaining).history

/-- `calculateScanPath` (src/algo.js lines 157-217). -/
def calculateScanPath (requests : List ℤ) (startHead : ℤ) (direction : String)
    (hist : List Step) : List Step :=
  let st : GenState := ⟨startHead, 0, [], [], hist⟩
  let sortedRequests := List.insertionSort (· ≤ ·) (toSetList requests)
  let leftRequests := (sortedRequests.filter (fun r => r < startHead)).reverse
  let rightRequests := sortedRequests.filter (fun r => startHead ≤ r)
  let st := if startHead ∈ sortedRequests then pushStep (markServed st startHead) else st
  let st :=
    if direction = "right" then
      let st := serveFoldSkip startHead st rightRequests
      let st := if st.head ≠ DISK_MAX then pushStep (goTo st DISK_MAX) else st
      serveFold st leftRequests
    else
      let st := serveFold st leftRequests
      let st := if st.head ≠ 0 then pushStep (goTo st 0) else st
      serveFoldSkip startHead st rightRequests
  st.history

/-- `calculateCScanPath` (src/algo.js lines 225-294).  The wrap-around is
charged as `totalSeek += DISK_MAX` with the head teleported to the
opposite boundary. -/
def calculateCScanPath (requests : List ℤ) (startHead : ℤ) (direction : String)
    (hist : List Step) : List Step :=
  let st : GenState := ⟨startHead, 0, [], [], hist⟩
  let sortedRequests := List.insertionSort (· ≤ ·) (toSetList requests)
  let leftRequests := sortedRequests.filter (fun r => r < startHead)
  let rightRequests := sortedRequests.filter (fun r => startHead ≤ r)
  let st := if startHead ∈ sortedRequests then pushStep (markServed st startHead) else st
  let st :=
    if direction = "right" then
      let st := serveFoldSkip startHead st rightRequests
      let st := if st.head ≠ DISK_MAX then pushStep (goTo st DISK_MAX) else st
      let st := pushStep { st with seek := st.seek + DISK_MAX, head := 0 }
      serveFold st leftRequests
    else
      let st := serveFold st leftRequests.reverse
      let st := if st.head ≠ 0 then pushStep (goTo st 0) else st
      let st := pushStep { st with seek := st.seek + DISK_MAX, head := DISK_MAX }
      serveFoldSkip startHead st rightRequests.reverse
  st.history

/-- `calculateLookPath` (src/algo.js lines 302-352). -/
def calculateLookPath (requests : List ℤ) (startHead : ℤ) (direction : String)
    (hist : List Step) : List Step :=
  let st : GenState := ⟨startHead, 0, [], [], hist⟩
  let sortedRequests := List.insertionSort (· ≤ ·) (toSetList requests)
  let leftRequests := (sortedRequests.filter (fun r => r < startHead)).reverse
  let rightRequests := sortedRequests.filter (fun r => startHead ≤ r)
  let st := if startHead ∈ sortedRequests then pushStep (markServed st startHead) else st
  let st :=
    if direction = "right" then
      let st := serveFoldSkip startHead st rightRequests
      serveFold st leftRequests
    else
      let st := serveFold st leftRequests
      serveFoldSkip startHead st rightRequests
  st.history

/-- `calculateCLookPath` (src/algo.js lines 360-433).  Moving left, the
jump lands on the largest request; it is served and recorded only when it
differs from `startHead` (the seek cost is charged either way). -/
def calculateCLookPath (requests : List ℤ) (startHead : ℤ) (direction : String)
    (hist : List Step) : List Step :=
  let st : GenState := ⟨startHead, 0, [], [], hist⟩
  let sortedRequests := List.insertionSort (· ≤ ·) (toSetList requests)
  let leftRequests := sortedRequests.filter (fun r => r < startHead)
  let rightRequests := sortedRequests.filter (fun r => startHead ≤ r)
  let st := if startHead ∈ sortedRequests then pushStep (markServed st startHead) else st
  let st :=
    if direction = "right" then
      let st := serveFoldSkip startHead st rightRequests
      match leftRequests with
      | [] => st
      | firstReq :: rest => serveFold (serveStep st firstReq) rest
    else
      let st := serveFold st leftRequests.reverse
      match rightRequests.getLast? with
      | none => st
      | some lastReq =>
          let st := goTo st lastReq
          let st := if st.head ≠ startHead then pushStep (markServed st lastReq) else st
          serveFoldSkip startHead st rightRequests.dropLast.reverse
  st.history

/-- The synthetic first step pushed by `calculateSimulationHistory`
(src/algo.js line 40). -/
def initStep (startHead : ℤ) : Step := ⟨startHead, 0, [], []⟩

/-- The `switch (algorithm)` dispatch of `calculateSimulationHistory`
(src/algo.js lines 42-61); an unknown token leaves the history as it is. -/
def runAlgorithm (algorithm : String) (requests : List ℤ) (startHead : ℤ)
    (direction : String) (hist : List Step) : List Step :=
  match algorithm with
  | "fcfs" => calculateFcfsPath (toSetList requests) requests startHead hist
  | "sstf" => calculateSstfPath requests startHead hist
  | "scan" => calculateScanPath requests startHead direction hist
  | "c-scan" => calculateCScanPath requests startHead direction hist
  | "look" => calculateLookPath requests startHead direction hist
  | "c-look" => calculateCLookPath requests startHead direction hist
  | _ => hist

/-- `calculateSimulationHistory` (src/algo.js lines 27-69): clear the
history, push the start step, dispatch on the algorithm name, then
duplicate the final step. -/
def calculateSimulationHistory (algorithm : String) (requests : List ℤ)
    (startHead : ℤ) (direction : String) : List Step :=
  let hist := runAlgorithm algorithm requests startHead direction [initStep startHead]
  match hist.getLast? with
  | some s => hist ++ [s]
  | none => hist

/-- The cumulative seek of the final `Step` of a run. -/
def totalSeekOf (run : List Step) : ℤ :=
  match run.getLast? with
  | some s => s.seek
  | none => 0

/-- The SSTF `while (remaining.size > 0)` loop of `getAlgorithmStats`
(src/algo.js lines 476-489); its body is textually the same selection
loop as the Generator's, so it shares `sstfPick`.  Fuelled like
`sstfLoop`. -/
def statsSstfLoop : Nat → ℤ → ℤ → List ℤ → ℤ
  | 0, _, totalSeek, _ => totalSeek
  | fuel + 1, headCopy, totalSeek, remaining =>
      match sstfPick headCopy remaining with
      | none => totalSeek
      | some dr => statsSstfLoop fuel dr.2 (totalSeek + dr.1) (remaining.erase dr.2)

/-- `getAlgorithmStats` (src/algo.js lines 454-601). -/
def getAlgorithmStats (algo : String) (requests : List ℤ) (startHead : ℤ)
    (direction : String) : ℤ :=
  let reqCopy := if algo = "fcfs" then requests else toSetList requests
  let diskMax := DISK_MAX
  match algo with
  | "fcfs" =>
      (reqCopy.foldl (fun p req => (p.1 + |req - p.2|, req)) ((0 : ℤ), startHead)).1
  | "sstf" =>
      let remaining := toSetList reqCopy
      let remaining := if startHead ∈ remaining then remaining.erase startHead else remaining
      statsSstfLoop remaining.length startHead 0 remaining
  | "scan" =>
      let sorted := List.insertionSort (· ≤ ·) reqCopy
      let left := sorted.filter (fun r => r < startHead)
      let right := sorted.filter (fun r => startHead ≤ r)
      if direction = "right" then
        let th : ℤ × ℤ :=
          match right.getLast? with
          | some m => (|m - startHead|, m)
          | none => (0, startHead)
        let t := th.1 + |diskMax - th.2|
        match left.head? with
        | some m => t + |m - diskMax|
        | none => t
      else
        let th : ℤ × ℤ :=
          match left.head? with
          | some m => (|m - startHead|, m)
          | none => (0, startHead)
        let t := th.1 + |0 - th.2|
        match right.getLast? with
        | some m => t + |m - 0|
        | none => t
  | "c-scan" =>
      let sorted := List.insertionSort (· ≤ ·) reqCopy
      let c_left := sorted.filter (fun r => r < startHead)
      let c_right := sorted.filter (fun r => startHead ≤ r)
      if direction = "right" then
        let th : ℤ × ℤ :=
          match c_right.getLast? with
          | some m => (|m - startHead|, m)
          | none => (0, startHead)
        let t := th.1 + |diskMax - th.2| + diskMax
        match c_left.getLast? with
        | some m => t + |m - 0|
        | none => t
      else
        let th : ℤ × ℤ :=
          match c_left.head? with
          | some m => (|m - startHead|, m)
          | none => (0, startHead)
        let t := th.1 + |0 - th.2| + diskMax
        match c_right.head? with
        | some m => t + |m - diskMax|
        | none => t
  | "look" =>
      let sorted := List.insertionSort (· ≤ ·) reqCopy
      let l_left := sorted.filter (fun r => r < startHead)
      let l_right := sorted.filter (fun r => startHead ≤ r)
      if direction = "right" then
        let th : ℤ × ℤ :=
          match l_right.getLast? with
          | some m => (|m - startHead|, m)
          | none => (0, startHead)
        match l_left.head? with
        | some m => th.1 + |m - th.2|
        | none => th.1
      else
        let th : ℤ × ℤ :=
          match l_left.head? with
          | some m => (|m - startHead|, m)
          | none => (0, startHead)
        match l_right.getLast? with
        | some m => th.1 + |m - th.2|
        | none => th.1
  | "c-look" =>
      let sorted := List.insertionSort (· ≤ ·) reqCopy
      let cl_left := sorted.filter (fun r => r < startHead)
      let cl_right := sorted.filter (fun r => startHead ≤ r)
      if direction = "right" then
        let th : ℤ × ℤ :=
          match cl_right.getLast? with
          | some m => (|m - startHead|, m)
          | none => (0, startHead)
        match cl_left.head?, cl_left.getLast? with
        | some first, some last => th.1 + |first - th.2| + |last - first|
        | _, _ => th.1
      else
        let th : ℤ × ℤ :=
          match cl_left.head? with
          | some m => (|m - startHead|, m)
          | none => (0, startHead)
        match cl_right.head?, cl_right.getLast? with
        | some first, some last => th.1 + |last - th.2| + |first - last|
        | _, _ => th.1
  | _ => 0

@[simp] theorem goTo_history (st : GenState) (t : ℤ) : (goTo st t).history = st.history := rfl
@[simp] theorem goTo_head (st : GenState) (t : ℤ) : (goTo st t).head = t := rfl
@[simp] theorem goTo_seek (st : GenState) (t : ℤ) : (goTo st t).seek = st.seek + |t - st.head| := rfl
@[simp] theorem goTo_served (st : GenState) (t : ℤ) : (goTo st t).served = st.served := rfl
@[simp] theorem goTo_servedOrder (st : GenState) (t : ℤ) : (goTo st t).servedOrder = st.servedOrder := rfl

@[simp] theorem markServed_history (st : GenState) (r : ℤ) : (markServed st r).history = st.history := rfl
@[simp] theorem markServed_head (st : GenState) (r : ℤ) : (markServed st r).head = st.head := rfl
@[simp] theorem markServed_seek (st : GenState) (r : ℤ) : (markServed st r).seek = st.seek := rfl
@[simp] theorem markServed_served (st : GenState) (r : ℤ) : (markServed st r).served = setAdd st.served r := rfl
@[simp] theorem markServed_servedOrder (st : GenState) (r : ℤ) : (markServed st r).servedOrder = st.servedOrder ++ [r] := rfl

@[simp] theorem pushStep_history (st : GenState) : (pushStep st).history = st.history ++ [snap st] := rfl
@[simp] theorem pushStep_head (st : GenState) : (pushStep st).head = st.head := rfl
@[simp] theorem pushStep_seek (st : GenState) : (pushStep st).seek = st.seek := rfl
@[simp] theorem pushStep_served (st : GenState) : (pushStep st).served = st.served := rfl
@[simp] theorem pushStep_servedOrder (st : GenState) : (pushStep st).servedOrder = st.servedOrder := rfl

theorem foldl_history_append (f : GenState → ℤ → GenState)
    (hf : ∀ s r, ∃ u, (f s r).history = s.history ++ u) :
    ∀ (l : List ℤ) (st : GenState), ∃ t, (l.foldl f st).history = st.history ++ t := by
  intro l
  induction l with
  | nil => intro st; exact ⟨[], by simp⟩
  | cons x xs ih =>
    intro st
    obtain ⟨u, hu⟩ := hf st x
    obtain ⟨t, ht⟩ := ih (f st x)
    exact ⟨u ++ t, by simp [List.foldl_cons, ht, hu]⟩

theorem serveStep_history (st : GenState) (r : ℤ) :
    (serveStep st r).history = st.history ++ [snap (markServed (goTo st r) r)] := rfl

theorem serveFold_history_append (l : List ℤ) (st : GenState) :
    ∃ t, (serveFold st l).history = st.history ++ t :=
  foldl_history_append _ (fun s r => ⟨_, serveStep_history s r⟩) l st

theorem serveFoldSkip_history_append (start : ℤ) (l : List ℤ) (st : GenState) :
    ∃ t, (serveFoldSkip start st l).history = st.history ++ t := by
  apply foldl_history_append
  intro s r
  by_cases h : r = start
  · exact ⟨[], by simp [h]⟩
  · exact ⟨[snap (markServed (goTo s r) r)], by simp [h, serveStep]⟩

theorem sstfLoop_history_append :
    ∀ (fuel : Nat) (st : GenState) (remaining : List ℤ),
      ∃ t, (sstfLoop fuel st remaining).history = st.history ++ t := by
  intro fuel
  induction fuel with
  | zero => intro st remaining; exact ⟨[], by simp [sstfLoop]⟩
  | succ n ih =>
    intro st remaining
    rw [sstfLoop]
    cases sstfPick st.head remaining with
    | none => exact ⟨[], by simp⟩
    | some dr =>
        obtain ⟨t, ht⟩ := ih
          (pushStep (markServed { st with seek := st.seek + dr.1, head := dr.2 } dr.2))
          (remaining.erase dr.2)
        refine ⟨snap (markServed { st with seek := st.seek + dr.1, head := dr.2 } dr.2) :: t, ?_⟩
        rw [ht]
        simp

theorem calculateFcfsPath_shape (origSet requests : List ℤ) (startHead : ℤ) (hist : List Step) :
    ∃ t, calculateFcfsPath origSet requests startHead hist = hist ++ t := by
  unfold calculateFcfsPath
  apply foldl_history_append
  intro s r
  by_cases h : r ∈ origSet
  · exact ⟨[snap (markServed (goTo s r) r)], by simp [h]⟩
  · exact ⟨[snap (goTo s r)], by simp [h]⟩

theorem calculateSstfPath_shape (requests : List ℤ) (startHead : ℤ) (hist : List Step) :
    ∃ t, calculateSstfPath requests startHead hist = hist ++ t := by
  unfold calculateSstfPath
  by_cases h : startHead ∈ toSetList requests
  · simp only [h, if_true]
    obtain ⟨t, ht⟩ := sstfLoop_history_append
      ((toSetList requests).erase startHead).length
      (pushStep (markServed ⟨startHead, 0, [], [], hist⟩ startHead))
      ((toSetList requests).erase startHead)
    refine ⟨snap (markServed ⟨startHead, 0, [], [], hist⟩ startHead) :: t, ?_⟩
    rw [ht]
    simp
  · simp only [h, if_false]
    exact sstfLoop_history_append _ _ _

theorem hist_ext_trans {a b c : List Step} (h1 : ∃ t, b = a ++ t)
    (h2 : ∃ t, c = b ++ t) : ∃ t, c = a ++ t := by
  obtain ⟨t1, rfl⟩ := h1
  obtain ⟨t2, rfl⟩ := h2
  exact ⟨t1 ++ t2, by simp⟩

theorem condPushServe_hist (c : Prop) [Decidable c] (st : GenState) (x : ℤ) :
    ∃ t, (if c then pushStep (markServed st x) else st).history = st.history ++ t := by
  by_cases h : c
  · exact ⟨[snap (markServed st x)], by simp [h]⟩
  · exact ⟨[], by simp [h]⟩

theorem condPushGoTo_hist (c : Prop) [Decidable c] (st : GenState) (x : ℤ) :
    ∃ t, (if c then pushStep (goTo st x) else st).history = st.history ++ t := by
  by_cases h : c
  · exact ⟨[snap (goTo st x)], by simp [h]⟩
  · exact ⟨[], by simp [h]⟩

theorem serveStep_hist_ext (st : GenState) (r : ℤ) :
    ∃ t, (serveStep st r).history = st.history ++ t :=
  ⟨[snap (markServed (goTo st r) r)], by simp [serveStep]⟩

theorem condPushServeGoTo_hist (c : Prop) [Decidable c] (st : GenState) (y x : ℤ) :
    ∃ t, (if c then pushStep (markServed (goTo st y) x) else goTo st y).history
      = st.history ++ t := by
  by_cases h : c
  · exact ⟨[snap (markServed (goTo st y) x)], by simp [h]⟩
  · exact ⟨[], by simp [h]⟩

theorem pushJump_hist (st : GenState) (a b : ℤ) :
    ∃ t, (pushStep { st with seek := a, head := b }).history = st.history ++ t :=
  ⟨[snap { st with seek := a, head := b }], by simp⟩

theorem calculateScanPath_shape (requests : List ℤ) (startHead : ℤ) (direction : String)
    (hist : List Step) :
    ∃ t, calculateScanPath requests startHead direction hist = hist ++ t := by
  unfold calculateScanPath
  by_cases hd : direction = "right" <;> simp only [hd, if_true, if_false]
  · exact hist_ext_trans
      (hist_ext_trans
        (hist_ext_trans (condPushServe_hist _ _ _) (serveFoldSkip_history_append _ _ _))
        (condPushGoTo_hist _ _ _))
      (serveFold_history_append _ _)
  · exact hist_ext_trans
      (hist_ext_trans
        (hist_ext_trans (condPushServe_hist _ _ _) (serveFold_history_append _ _))
        (condPushGoTo_hist _ _ _))
      (serveFoldSkip_history_append _ _ _)

theorem calculateCScanPath_shape (requests : List ℤ) (startHead : ℤ) (direction : String)
    (hist : List Step) :
    ∃ t, calculateCScanPath requests startHead direction hist = hist ++ t := by
  unfold calculateCScanPath
  by_cases hd : direction = "right" <;> simp only [hd, if_true, if_false]
  · exact hist_ext_trans
      (hist_ext_trans
        (hist_ext_trans
          (hist_ext_trans (condPushServe_hist _ _ _) (serveFoldSkip_history_append _ _ _))
          (condPushGoTo_hist _ _ _))
        (pushJump_hist _ _ _))
      (serveFold_history_append _ _)
  · exact hist_ext_trans
      (hist_ext_trans
        (hist_ext_trans
          (hist_ext_trans (condPushServe_hist _ _ _) (serveFold_history_append _ _))
          (condPushGoTo_hist _ _ _))
        (pushJump_hist _ _ _))
      (serveFoldSkip_history_append _ _ _)

theorem calculateLookPath_shape (requests : List ℤ) (startHead : ℤ) (direction : String)
    (hist : List Step) :
    ∃ t, calculateLookPath requests startHead direction hist = hist ++ t := by
  unfold calculateLookPath
  by_cases hd : direction = "right" <;> simp only [hd, if_true, if_false]
  · exact hist_ext_trans
      (hist_ext_trans (condPushServe_hist _ _ _) (serveFoldSkip_history_append _ _ _))
      (serveFold_history_append _ _)
  · exact hist_ext_trans
      (hist_ext_trans (condPushServe_hist _ _ _) (serveFold_history_append _ _))
      (serveFoldSkip_history_append _ _ _)

theorem calculateCLookPath_shape (requests : List ℤ) (startHead : ℤ) (direction : String)
    (hist : List Step) :
    ∃ t, calculateCLookPath requests startHead direction hist = hist ++ t := by
  unfold calculateCLookPath
  by_cases hd : direction = "right" <;> simp only [hd, if_true, if_false]
  · cases List.filter (fun r => decide (r < startHead))
        (List.insertionSort (fun x1 x2 => x1 ≤ x2) (toSetList requests)) with
    | nil =>
        exact hist_ext_trans (condPushServe_hist _ _ _) (serveFoldSkip_history_append _ _ _)
    | cons firstReq rest =>
        exact hist_ext_trans
          (hist_ext_trans
            (hist_ext_trans (condPushServe_hist _ _ _) (serveFoldSkip_history_append _ _ _))
            (serveStep_hist_ext _ firstReq))
          (serveFold_history_append _ _)
  · cases (List.filter (fun r => decide (startHead ≤ r))
        (List.insertionSort (fun x1 x2 => x1 ≤ x2) (toSetList requests))).getLast? with
    | none =>
        dsimp only
        exact hist_ext_trans (condPushServe_hist _ _ _) (serveFold_history_append _ _)
    | some lastReq =>
        dsimp only
        exact hist_ext_trans
          (hist_ext_trans
            (hist_ext_trans (condPushServe_hist _ _ _) (serveFold_history_append _ _))
            (condPushServeGoTo_hist _ _ _ _))
          (serveFoldSkip_history_append _ _ _)

theorem finish_shape (i : Step) (t : List Step) :
    ∃ u, (match (i :: t).getLast? with
      | some s => (i :: t) ++ [s]
      | none => i :: t) = (i :: u) ++ [(i :: u).getLast (List.cons_ne_nil i u)] := by
  rw [List.getLast?_eq_getLast (i :: t) (List.cons_ne_nil i t)]
  exact ⟨t, rfl⟩

theorem runAlgorithm_shape (alg : String) (requests : List ℤ) (startHead : ℤ)
    (direction : String) (hist : List Step) :
    ∃ u, runAlgorithm alg requests startHead direction hist = hist ++ u := by
  unfold runAlgorithm
  split
  · exact calculateFcfsPath_shape (toSetList requests) requests startHead hist
  · exact calculateSstfPath_shape requests startHead hist
  · exact calculateScanPath_shape requests startHead direction hist
  · exact calculateCScanPath_shape requests startHead direction hist
  · exact calculateLookPath_shape requests startHead direction hist
  · exact calculateCLookPath_shape requests startHead direction hist
  · exact ⟨[], by simp⟩

theorem calculateSimulationHistory_shape (alg : String) (requests : List ℤ)
    (startHead : ℤ) (direction : String) :
    ∃ u, calculateSimulationHistory alg requests startHead direction
      = (initStep startHead :: u)
        ++ [(initStep startHead :: u).getLast (List.cons_ne_nil _ _)] := by
  unfold calculateSimulationHistory
  dsimp only
  obtain ⟨u, hu⟩ := runAlgorithm_shape alg requests startHead direction [initStep startHead]
  rw [hu]
  exact finish_shape (initStep startHead) u

theorem sstfPick_aux_char (head : ℤ) :
    ∀ (l : List ℤ) (r0 : ℤ),
    ∃ d r, (l.foldl (fun acc req =>
      match acc with
      | none => some (|req - head|, req)
      | some dr => if |req - head| < dr.1 then some (|req - head|, req) else some dr)
      (some (|r0 - head|, r0))) = some (d, r) ∧ d = |r - head| ∧ d ≤ |r0 - head| ∧
      (∀ x ∈ l, d ≤ |x - head|) ∧
      ((d = |r0 - head| ∧ r = r0 ∧ ∀ x ∈ l, |r0 - head| ≤ |x - head|) ∨
       (∃ l₁ l₂, l = l₁ ++ r :: l₂ ∧ d < |r0 - head| ∧ ∀ x ∈ l₁, d < |x - head|)) := by
  intro l
  induction l with
  | nil =>
    intro r0
    exact ⟨|r0 - head|, r0, rfl, rfl, le_refl _, by simp, Or.inl ⟨rfl, rfl, by simp⟩⟩
  | cons y ys ih =>
    intro r0
    by_cases hy : |y - head| < |r0 - head|
    · obtain ⟨d, r, hfold, hdr, hle, hmin, hcase⟩ := ih y
      refine ⟨d, r, ?_, hdr, le_of_lt (lt_of_le_of_lt hle hy), ?_, ?_⟩
      · simpa [List.foldl_cons, if_pos hy] using hfold
      · intro x hx
        rcases List.mem_cons.mp hx with rfl | hx
        · exact hle
        · exact hmin x hx
      · rcases hcase with ⟨hd, hr, hall⟩ | ⟨l₁, l₂, hsplit, hlt, hfar⟩
        · refine Or.inr ⟨[], ys, by simp [hr], by rw [hd]; exact hy, by simp⟩
        · refine Or.inr ⟨y :: l₁, l₂, by rw [hsplit]; rfl, lt_trans hlt hy, ?_⟩
          intro x hx
          rcases List.mem_cons.mp hx with rfl | hx
          · exact hlt
          · exact hfar x hx
    · obtain ⟨d, r, hfold, hdr, hle, hmin, hcase⟩ := ih r0
      refine ⟨d, r, ?_, hdr, hle, ?_, ?_⟩
      · simpa [List.foldl_cons, if_neg hy] using hfold
      · intro x hx
        rcases List.mem_cons.mp hx with rfl | hx
        · exact le_trans hle (not_lt.mp hy)
        · exact hmin x hx
      · rcases hcase with ⟨hd, hr, hall⟩ | ⟨l₁, l₂, hsplit, hlt, hfar⟩
        · refine Or.inl ⟨hd, hr, ?_⟩
          intro x hx
          rcases List.mem_cons.mp hx with rfl | hx
          · exact not_lt.mp hy
          · exact hall x hx
        · refine Or.inr ⟨y :: l₁, l₂, by rw [hsplit]; rfl, hlt, ?_⟩
          intro x hx
          rcases List.mem_cons.mp hx with rfl | hx
          · exact lt_of_lt_of_le hlt (not_lt.mp hy)
          · exact hfar x hx

theorem sstfPick_char (head : ℤ) (l : List ℤ) (hne : l ≠ []) :
    ∃ r l₁ l₂, sstfPick head l = some (|r - head|, r) ∧ l = l₁ ++ r :: l₂ ∧
      (∀ x ∈ l, |r - head| ≤ |x - head|) ∧ (∀ x ∈ l₁, |r - head| < |x - head|) := by
  match l, hne with
  | x :: xs, _ =>
    obtain ⟨d, r, hfold, hdr, hle, hmin, hcase⟩ := sstfPick_aux_char head xs x
    have hpick : sstfPick head (x :: xs) = some (d, r) := by
      rw [sstfPick]
      simpa [List.foldl_cons] using hfold
    subst hdr
    rcases hcase with ⟨hd, hr, hall⟩ | ⟨l₁, l₂, hsplit, hlt, hfar⟩
    · subst hr
      refine ⟨r, [], xs, hpick, by simp, ?_, by simp⟩
      intro z hz
      rcases List.mem_cons.mp hz with rfl | hz
      · exact le_refl _
      · exact hmin z hz
    · refine ⟨r, x :: l₁, l₂, hpick, by rw [hsplit]; rfl, ?_, ?_⟩
      · intro z hz
        rcases List.mem_cons.mp hz with rfl | hz
        · exact hle
        · exact hmin z hz
      · intro z hz
        rcases List.mem_cons.mp hz with rfl | hz
        · exact hlt
        · exact hfar z hz

theorem mem_setAdd {s : List ℤ} {x y : ℤ} : y ∈ setAdd s x ↔ y ∈ s ∨ y = x := by
  unfold setAdd
  by_cases h : x ∈ s
  · simp only [h, if_true]
    constructor
    · exact Or.inl
    · rintro (hy | rfl)
      · exact hy
      · exact h
  · simp [h]

theorem setAdd_nodup {s : List ℤ} (x : ℤ) (hs : s.Nodup) : (setAdd s x).Nodup := by
  unfold setAdd
  by_cases h : x ∈ s
  · simpa [h]
  · simpa [h, List.nodup_append] using hs

theorem mem_foldl_setAdd (l : List ℤ) :
    ∀ (s : List ℤ) (y : ℤ), y ∈ l.foldl setAdd s ↔ y ∈ s ∨ y ∈ l := by
  induction l with
  | nil => intro s y; simp
  | cons x xs ih =>
    intro s y
    rw [List.foldl_cons, ih]
    rw [mem_setAdd]
    constructor
    · rintro ((hy | rfl) | hy)
      · exact Or.inl hy
      · exact Or.inr (List.mem_cons_self _ _)
      · exact Or.inr (List.mem_cons_of_mem _ hy)
    · rintro (hy | hy)
      · exact Or.inl (Or.inl hy)
      · rcases List.mem_cons.mp hy with rfl | hy
        · exact Or.inl (Or.inr rfl)
        · exact Or.inr hy

theorem foldl_setAdd_nodup (l : List ℤ) :
    ∀ (s : List ℤ), s.Nodup → (l.foldl setAdd s).Nodup := by
  induction l with
  | nil => intro s hs; exact hs
  | cons x xs ih =>
    intro s hs
    exact ih _ (setAdd_nodup x hs)

theorem toSetList_nodup (l : List ℤ) : (toSetList l).Nodup :=
  foldl_setAdd_nodup l [] List.nodup_nil

theorem mem_toSetList {l : List ℤ} {y : ℤ} : y ∈ toSetList l ↔ y ∈ l := by
  rw [toSetList, mem_foldl_setAdd]
  simp

theorem sortedReqs_sorted (reqs : List ℤ) :
    (List.insertionSort (· ≤ ·) (toSetList reqs)).Sorted (· ≤ ·) :=
  List.sorted_insertionSort _ _

theorem sortedReqs_nodup (reqs : List ℤ) :
    (List.insertionSort (· ≤ ·) (toSetList reqs)).Nodup :=
  (List.perm_insertionSort _ _).nodup_iff.mpr (toSetList_nodup reqs)

theorem mem_sortedReqs {reqs : List ℤ} {y : ℤ} :
    y ∈ List.insertionSort (· ≤ ·) (toSetList reqs) ↔ y ∈ reqs := by
  rw [(List.perm_insertionSort (· ≤ ·) (toSetList reqs)).mem_iff]
  exact mem_toSetList

theorem sorted_head?_eq {l : List ℤ} (hs : l.Sorted (· ≤ ·)) {a : ℤ}
    (ha : a ∈ l) (hmin : ∀ x ∈ l, a ≤ x) : l.head? = some a := by
  cases l with
  | nil => cases ha
  | cons x xs =>
    have hxa : a ≤ x := hmin x (List.mem_cons_self _ _)
    have hax : x ≤ a := by
      rcases List.mem_cons.mp ha with rfl | ha
      · exact le_refl _
      · exact (List.sorted_cons.mp hs).1 a ha
    rw [List.head?_cons, le_antisymm hxa hax]

theorem sorted_getLast?_eq {l : List ℤ} (hs : l.Sorted (· ≤ ·)) {a : ℤ}
    (ha : a ∈ l) (hmax : ∀ x ∈ l, x ≤ a) : l.getLast? = some a := by
  induction l with
  | nil => cases ha
  | cons x xs ih =>
    cases xs with
    | nil =>
        rcases List.mem_cons.mp ha with rfl | ha
        · rfl
        · cases ha
    | cons y ys =>
        rw [List.getLast?_cons_cons]
        have hs' : (y :: ys).Sorted (· ≤ ·) := (List.sorted_cons.mp hs).2
        have hmax' : ∀ z ∈ y :: ys, z ≤ a := fun z hz => hmax z (List.mem_cons_of_mem _ hz)
        have ha' : a ∈ y :: ys := by
          rcases List.mem_cons.mp ha with rfl | ha
          · have hay : a ≤ y := (List.sorted_cons.mp hs).1 y (List.mem_cons_self _ _)
            have hya : y ≤ a := hmax y (List.mem_cons_of_mem _ (List.mem_cons_self _ _))
            rw [le_antisymm hya hay]
            exact List.mem_cons_self _ _
          · exact ha
        exact ih hs' ha' hmax'

@[simp] theorem snap_pushStep (st : GenState) : snap (pushStep st) = snap st := rfl
@[simp] theorem snap_head (st : GenState) : (snap st).head = st.head := rfl
@[simp] theorem snap_seek (st : GenState) : (snap st).seek = st.seek := rfl

theorem totalSeekOf_concat (l : List Step) (x : Step) :
    totalSeekOf (l ++ [x]) = x.seek := by
  simp [totalSeekOf, List.getLast?_concat]

theorem serveStep_head (st : GenState) (r : ℤ) : (serveStep st r).head = r := rfl

theorem serveStep_seek (st : GenState) (r : ℤ) :
    (serveStep st r).seek = st.seek + |r - st.head| := rfl

theorem serveFold_asc (l : List ℤ) :
    ∀ st : GenState, List.Chain (· ≤ ·) st.head l →
      (serveFold st l).head = l.getLastD st.head ∧
      (serveFold st l).seek = st.seek + (l.getLastD st.head - st.head) := by
  induction l with
  | nil => intro st _; exact ⟨rfl, by simp [serveFold]⟩
  | cons x xs ih =>
    intro st hc
    rcases List.chain_cons.mp hc with ⟨hx, hc'⟩
    have hc'' : List.Chain (· ≤ ·) (serveStep st x).head xs := by
      rw [serveStep_head]; exact hc'
    obtain ⟨hh, hs⟩ := ih (serveStep st x) hc''
    rw [serveFold] at hh hs ⊢
    rw [List.foldl_cons] at *
    refine ⟨by rw [hh, serveStep_head, List.getLastD_cons], ?_⟩
    rw [hs, serveStep_head, serveStep_seek, List.getLastD_cons]
    have : |x - st.head| = x - st.head := abs_of_nonneg (by omega)
    omega

theorem serveFold_desc (l : List ℤ) :
    ∀ st : GenState, List.Chain (· ≥ ·) st.head l →
      (serveFold st l).head = l.getLastD st.head ∧
      (serveFold st l).seek = st.seek + (st.head - l.getLastD st.head) := by
  induction l with
  | nil => intro st _; exact ⟨rfl, by simp [serveFold]⟩
  | cons x xs ih =>
    intro st hc
    rcases List.chain_cons.mp hc with ⟨hx, hc'⟩
    have hc'' : List.Chain (· ≥ ·) (serveStep st x).head xs := by
      rw [serveStep_head]; exact hc'
    obtain ⟨hh, hs⟩ := ih (serveStep st x) hc''
    rw [serveFold] at hh hs ⊢
    rw [List.foldl_cons] at *
    refine ⟨by rw [hh, serveStep_head, List.getLastD_cons], ?_⟩
    rw [hs, serveStep_head, serveStep_seek, List.getLastD_cons]
    have : |x - st.head| = st.head - x := by
      rw [abs_sub_comm]; exact abs_of_nonneg (by omega)
    omega

theorem serveFoldSkip_eq_filter (start : ℤ) (l : List ℤ) :
    ∀ st, serveFoldSkip start st l = serveFold st (l.filter (fun r => r ≠ start)) := by
  induction l with
  | nil => intro st; rfl
  | cons x xs ih =>
    intro st
    by_cases hx : x = start
    · rw [serveFoldSkip, List.foldl_cons, if_pos hx]
      rw [List.filter_cons_of_neg (by simp [hx])]
      exact ih st
    · rw [serveFoldSkip, List.foldl_cons, if_neg hx]
      rw [List.filter_cons_of_pos (by simp [hx])]
      rw [serveFold, List.foldl_cons]
      exact ih (serveStep st x)

theorem serveFoldSkip_eq_of_not_mem (start : ℤ) (l : List ℤ) (st : GenState)
    (h : start ∉ l) : serveFoldSkip start st l = serveFold st l := by
  rw [serveFoldSkip_eq_filter]
  congr 1
  rw [List.filter_eq_self]
  intro a ha
  have hne : a ≠ start := fun hae => h (hae ▸ ha)
  simp [hne]

theorem chain_le_of_sorted (a : ℤ) (l : List ℤ) (hs : l.Sorted (· ≤ ·))
    (hb : ∀ x ∈ l, a ≤ x) : List.Chain (· ≤ ·) a l := by
  rw [List.chain_iff_pairwise]
  exact List.pairwise_cons.mpr ⟨hb, hs⟩

theorem chain_ge_reverse (a : ℤ) (l : List ℤ) (hs : l.Sorted (· ≤ ·))
    (hb : ∀ x ∈ l, x ≤ a) : List.Chain (· ≥ ·) a l.reverse := by
  rw [List.chain_iff_pairwise]
  refine List.pairwise_cons.mpr ⟨fun x hx => hb x (List.mem_reverse.mp hx), ?_⟩
  rw [List.pairwise_reverse]
  exact hs.imp (fun h => h)

theorem getLastD_reverse (l : List ℤ) (d : ℤ) : l.reverse.getLastD d = l.headD d := by
  cases l with
  | nil => rfl
  | cons x xs =>
      rw [List.reverse_cons, List.headD_cons]
      rw [List.getLastD_eq_getLast?, List.getLast?_concat]
      rfl

theorem dropLast_headD (l : List ℤ) (x d : ℤ) (h : l ≠ []) :
    l.dropLast.headD (l.getLastD x) = l.headD d := by
  match l, h with
  | [a], _ => rfl
  | a :: b :: t, _ => rfl

theorem synced_pushStep (st : GenState) :
    (pushStep st).history.getLast? = some (snap (pushStep st)) := by
  rw [pushStep_history, List.getLast?_concat, snap_pushStep]

theorem synced_serveStep (st : GenState) (r : ℤ) :
    (serveStep st r).history.getLast? = some (snap (serveStep st r)) :=
  synced_pushStep _

theorem synced_serveFold (l : List ℤ) :
    ∀ st : GenState, st.history.getLast? = some (snap st) →
      (serveFold st l).history.getLast? = some (snap (serveFold st l)) := by
  induction l with
  | nil => intro st h; exact h
  | cons x xs ih =>
    intro st h
    rw [serveFold, List.foldl_cons]
    exact ih (serveStep st x) (synced_serveStep st x)

theorem synced_serveFoldSkip (start : ℤ) (l : List ℤ) (st : GenState)
    (h : st.history.getLast? = some (snap st)) :
    (serveFoldSkip start st l).history.getLast?
      = some (snap (serveFoldSkip start st l)) := by
  rw [serveFoldSkip_eq_filter]
  exact synced_serveFold _ st h

theorem synced_sstfLoop (fuel : Nat) :
    ∀ (st : GenState) (remaining : List ℤ),
      st.history.getLast? = some (snap st) →
      (sstfLoop fuel st remaining).history.getLast?
        = some (snap (sstfLoop fuel st remaining)) := by
  induction fuel with
  | zero => intro st remaining h; exact h
  | succ n ih =>
    intro st remaining h
    rw [sstfLoop]
    cases sstfPick st.head remaining with
    | none => exact h
    | some dr => exact ih _ _ (synced_pushStep _)

theorem totalSeekOf_run (alg : String) (requests : List ℤ) (startHead : ℤ)
    (direction : String) (st : GenState)
    (hrun : runAlgorithm alg requests startHead direction [initStep startHead] = st.history)
    (hsync : st.history.getLast? = some (snap st)) :
    totalSeekOf (calculateSimulationHistory alg requests startHead direction) = st.seek := by
  unfold calculateSimulationHistory
  dsimp only
  rw [hrun, hsync]
  exact totalSeekOf_concat _ _

theorem getLastD_cases (l : List ℤ) (d : ℤ) : l.getLastD d = d ∨ l.getLastD d ∈ l := by
  cases hl : l.getLast? with
  | none => left; rw [List.getLastD_eq_getLast?, hl]; rfl
  | some a =>
      right
      rw [List.getLastD_eq_getLast?, hl]
      exact List.mem_of_mem_getLast? (by rw [hl]; rfl)

theorem headD_cases (l : List ℤ) (d : ℤ) : l.headD d = d ∨ l.headD d ∈ l := by
  cases l with
  | nil => exact Or.inl rfl
  | cons x xs => exact Or.inr (List.mem_cons_self _ _)

theorem getLastD_of_getLast?_eq {l : List ℤ} {a : ℤ} (h : l.getLast? = some a) (d : ℤ) :
    l.getLastD d = a := by
  rw [List.getLastD_eq_getLast?, h]
  rfl

theorem getLastD_of_getLast?_none {l : List ℤ} (h : l.getLast? = none) (d : ℤ) :
    l.getLastD d = d := by
  rw [List.getLastD_eq_getLast?, h]
  rfl

theorem headD_of_head?_eq {l : List ℤ} {a : ℤ} (h : l.head? = some a) (d : ℤ) :
    l.headD d = a := by
  cases l with
  | nil => cases h
  | cons x xs => cases h; rfl

theorem headD_of_head?_none {l : List ℤ} (h : l.head? = none) (d : ℤ) :
    l.headD d = d := by
  cases l with
  | nil => rfl
  | cons x xs => cases h

theorem mem_of_getLast?_eq {l : List ℤ} {a : ℤ} (h : l.getLast? = some a) : a ∈ l :=
  List.mem_of_mem_getLast? (by rw [h]; rfl)

theorem mem_of_head?_eq {l : List ℤ} {a : ℤ} (h : l.head? = some a) : a ∈ l := by
  cases l with
  | nil => cases h
  | cons x xs => cases h; exact List.mem_cons_self _ _

theorem condGoTo_head_seek_ge (st : GenState) (x : ℤ) (hle : st.head ≤ x) :
    (if st.head ≠ x then pushStep (goTo st x) else st).head = x ∧
    (if st.head ≠ x then pushStep (goTo st x) else st).seek = st.seek + (x - st.head) := by
  by_cases hc : st.head = x
  · rw [if_neg (by simp [hc])]
    exact ⟨hc, by omega⟩
  · rw [if_pos hc]
    refine ⟨by simp, ?_⟩
    rw [pushStep_seek, goTo_seek]
    have : |x - st.head| = x - st.head := abs_of_nonneg (by omega)
    omega

theorem condGoTo_head_seek_le (st : GenState) (x : ℤ) (hle : x ≤ st.head) :
    (if st.head ≠ x then pushStep (goTo st x) else st).head = x ∧
    (if st.head ≠ x then pushStep (goTo st x) else st).seek = st.seek + (st.head - x) := by
  by_cases hc : st.head = x
  · rw [if_neg (by simp [hc])]
    exact ⟨hc, by omega⟩
  · rw [if_pos hc]
    refine ⟨by simp, ?_⟩
    rw [pushStep_seek, goTo_seek]
    have : |x - st.head| = st.head - x := by
      rw [abs_sub_comm]
      exact abs_of_nonneg (by omega)
    omega

theorem condGoTo_synced (st : GenState) (x : ℤ)
    (h : st.history.getLast? = some (snap st)) :
    (if st.head ≠ x then pushStep (goTo st x) else st).history.getLast?
      = some (snap (if st.head ≠ x then pushStep (goTo st x) else st)) := by
  by_cases hc : st.head ≠ x
  · rw [if_pos hc]
    exact synced_pushStep _
  · rw [if_neg hc]
    exact h

theorem stats_scan_eq (reqs : List ℤ) (h : ℤ) (d : String)
    (hrange : ∀ r ∈ reqs, 0 ≤ r ∧ r ≤ DISK_MAX)
    (hh0 : 0 ≤ h) (hhM : h ≤ DISK_MAX) (hnm : h ∉ reqs) :
    totalSeekOf (calculateSimulationHistory "scan" reqs h d)
      = getAlgorithmStats "scan" reqs h d := by
  have hS : (List.insertionSort (fun x1 x2 => x1 ≤ x2) (toSetList reqs)).Sorted (· ≤ ·) :=
    sortedReqs_sorted reqs
  have hSb : ∀ x ∈ List.insertionSort (fun x1 x2 => x1 ≤ x2) (toSetList reqs),
      0 ≤ x ∧ x ≤ DISK_MAX := fun x hx => hrange x (mem_sortedReqs.mp hx)
  have hmemS : h ∉ List.insertionSort (fun x1 x2 => x1 ≤ x2) (toSetList reqs) :=
    fun hc => hnm (mem_sortedReqs.mp hc)
  set S := List.insertionSort (fun x1 x2 => x1 ≤ x2) (toSetList reqs) with hSdef
  set L := S.filter (fun r => decide (r < h)) with hLdef
  set R := S.filter (fun r => decide (h ≤ r)) with hRdef
  have hLmem : ∀ x ∈ L, x < h ∧ 0 ≤ x ∧ x ≤ DISK_MAX := by
    intro x hx
    obtain ⟨hxS, hxd⟩ := List.mem_filter.mp hx
    exact ⟨by simpa using hxd, (hSb x hxS).1, (hSb x hxS).2⟩
  have hRmem : ∀ x ∈ R, h ≤ x ∧ 0 ≤ x ∧ x ≤ DISK_MAX := by
    intro x hx
    obtain ⟨hxS, hxd⟩ := List.mem_filter.mp hx
    exact ⟨by simpa using hxd, (hSb x hxS).1, (hSb x hxS).2⟩
  have hLs : L.Sorted (· ≤ ·) := hS.filter _
  have hRs : R.Sorted (· ≤ ·) := hS.filter _
  have hnR : h ∉ R := fun hc => hnm (mem_sortedReqs.mp (List.mem_filter.mp hc).1)
  by_cases hd : d = "right"
  · -- generator side
    set st0 : GenState := ⟨h, 0, [], [], [initStep h]⟩ with hst0
    have hsync0 : st0.history.getLast? = some (snap st0) := by rw [hst0]; rfl
    have hskip : serveFoldSkip h st0 R = serveFold st0 R :=
      serveFoldSkip_eq_of_not_mem h R st0 hnR
    have hchR : List.Chain (· ≤ ·) st0.head R := by
      rw [hst0]
      exact chain_le_of_sorted h R hRs (fun x hx => (hRmem x hx).1)
    obtain ⟨hh1, hs1⟩ := serveFold_asc R st0 hchR
    set st1 := serveFold st0 R with hst1
    have hst0head : st0.head = h := by rw [hst0]
    have hst0seek : st0.seek = 0 := by rw [hst0]
    rw [hst0head] at hh1
    rw [hst0head, hst0seek] at hs1
    have hA : st1.head ≤ DISK_MAX := by
      rw [hh1]
      rcases getLastD_cases R h with hc | hc
      · rw [hc]; exact hhM
      · exact (hRmem _ hc).2.2
    obtain ⟨hh2, hs2⟩ := condGoTo_head_seek_ge st1 DISK_MAX hA
    set st2 := if st1.head ≠ DISK_MAX then pushStep (goTo st1 DISK_MAX) else st1 with hst2
    have hchL : List.Chain (· ≥ ·) st2.head L.reverse := by
      rw [hh2]
      exact chain_ge_reverse DISK_MAX L hLs (fun x hx => (hLmem x hx).2.2)
    obtain ⟨hh3, hs3⟩ := serveFold_desc L.reverse st2 hchL
    set st3 := serveFold st2 L.reverse with hst3
    have hrun : runAlgorithm "scan" reqs h d [initStep h] = st3.history := by
      rw [hd]
      show calculateScanPath reqs h "right" [initStep h] = st3.history
      unfold calculateScanPath
      dsimp only
      rw [← hSdef, ← hLdef, ← hRdef, ← hst0]
      rw [if_neg hmemS, if_pos rfl]
      rw [hskip, ← hst2, ← hst3]
    have hsync : st3.history.getLast? = some (snap st3) := by
      rw [hst3]
      refine synced_serveFold _ _ ?_
      rw [hst2]
      refine condGoTo_synced _ _ ?_
      rw [hst1]
      exact synced_serveFold _ _ hsync0
    rw [totalSeekOf_run "scan" reqs h d st3 hrun hsync]
    -- stats side
    simp only [getAlgorithmStats, String.reduceEq, reduceIte]
    rw [if_pos hd]
    rw [← hSdef, ← hLdef, ← hRdef]
    rw [hs3, hs2, hs1, hh2, hh1, getLastD_reverse]
    cases hRl : R.getLast? with
    | none =>
        rw [getLastD_of_getLast?_none hRl]
        cases hLh : L.head? with
        | none =>
            rw [headD_of_head?_none hLh]
            dsimp only
            have : |DISK_MAX - h| = DISK_MAX - h := abs_of_nonneg (by omega)
            omega
        | some m =>
            rw [headD_of_head?_eq hLh]
            dsimp only
            obtain ⟨hm1, hm2, hm3⟩ := hLmem m (mem_of_head?_eq hLh)
            have e1 : |DISK_MAX - h| = DISK_MAX - h := abs_of_nonneg (by omega)
            have e2 : |m - DISK_MAX| = DISK_MAX - m := by
              rw [abs_sub_comm]; exact abs_of_nonneg (by omega)
            omega
    | some A =>
        rw [getLastD_of_getLast?_eq hRl]
        obtain ⟨hA1, hA2, hA3⟩ := hRmem A (mem_of_getLast?_eq hRl)
        cases hLh : L.head? with
        | none =>
            rw [headD_of_head?_none hLh]
            dsimp only
            have e1 : |A - h| = A - h := abs_of_nonneg (by omega)
            have e2 : |DISK_MAX - A| = DISK_MAX - A := abs_of_nonneg (by omega)
            omega
        | some m =>
            rw [headD_of_head?_eq hLh]
            dsimp only
            obtain ⟨hm1, hm2, hm3⟩ := hLmem m (mem_of_head?_eq hLh)
            have e1 : |A - h| = A - h := abs_of_nonneg (by omega)
            have e2 : |DISK_MAX - A| = DISK_MAX - A := abs_of_nonneg (by omega)
            have e3 : |m - DISK_MAX| = DISK_MAX - m := by
              rw [abs_sub_comm]; exact abs_of_nonneg (by omega)
            omega
  · set st0 : GenState := ⟨h, 0, [], [], [initStep h]⟩ with hst0
    have hsync0 : st0.history.getLast? = some (snap st0) := by rw [hst0]; rfl
    have hchL : List.Chain (· ≥ ·) st0.head L.reverse := by
      rw [hst0]
      exact chain_ge_reverse h L hLs (fun x hx => le_of_lt (hLmem x hx).1)
    obtain ⟨hh1, hs1⟩ := serveFold_desc L.reverse st0 hchL
    set st1 := serveFold st0 L.reverse with hst1
    have hst0head : st0.head = h := by rw [hst0]
    have hst0seek : st0.seek = 0 := by rw [hst0]
    rw [hst0head] at hh1
    rw [hst0head, hst0seek] at hs1
    rw [getLastD_reverse] at hh1 hs1
    have hm0 : 0 ≤ st1.head := by
      rw [hh1]
      rcases headD_cases L h with hc | hc
      · rw [hc]; exact hh0
      · exact (hLmem _ hc).2.1
    obtain ⟨hh2, hs2⟩ := condGoTo_head_seek_le st1 0 hm0
    set st2 := if st1.head ≠ 0 then pushStep (goTo st1 0) else st1 with hst2
    have hnR2 : h ∉ R := hnR
    have hskip : serveFoldSkip h st2 R = serveFold st2 R :=
      serveFoldSkip_eq_of_not_mem h R st2 hnR2
    have hchR : List.Chain (· ≤ ·) st2.head R := by
      rw [hh2]
      exact chain_le_of_sorted 0 R hRs (fun x hx => (hRmem x hx).2.1)
    obtain ⟨hh3, hs3⟩ := serveFold_asc R st2 hchR
    set st3 := serveFold st2 R with hst3
    have hrun : runAlgorithm "scan" reqs h d [initStep h] = st3.history := by
      show calculateScanPath reqs h d [initStep h] = st3.history
      unfold calculateScanPath
      dsimp only
      rw [← hSdef, ← hLdef, ← hRdef, ← hst0]
      rw [if_neg hmemS, if_neg hd]
      rw [← hst1, ← hst2, hskip]
    have hsync : st3.history.getLast? = some (snap st3) := by
      rw [hst3]
      refine synced_serveFold _ _ ?_
      rw [hst2]
      refine condGoTo_synced _ _ ?_
      rw [hst1]
      exact synced_serveFold _ _ hsync0
    rw [totalSeekOf_run "scan" reqs h d st3 hrun hsync]
    simp only [getAlgorithmStats, String.reduceEq, reduceIte]
    rw [if_neg hd]
    rw [← hSdef, ← hLdef, ← hRdef]
    rw [hs3, hs2, hs1, hh2, hh1]
    cases hLh : L.head? with
    | none =>
        rw [headD_of_head?_none hLh]
        cases hRl : R.getLast? with
        | none =>
            rw [getLastD_of_getLast?_none hRl]
            dsimp only
            have e1 : |0 - h| = h := by rw [abs_sub_comm]; rw [show h - 0 = h by ring]; exact abs_of_nonneg hh0
            omega
        | some A =>
            rw [getLastD_of_getLast?_eq hRl]
            dsimp only
            obtain ⟨hA1, hA2, hA3⟩ := hRmem A (mem_of_getLast?_eq hRl)
            have e1 : |0 - h| = h := by rw [abs_sub_comm]; rw [show h - 0 = h by ring]; exact abs_of_nonneg hh0
            have e2 : |A - 0| = A := by rw [show A - 0 = A by ring]; exact abs_of_nonneg hA2
            omega
    | some m =>
        rw [headD_of_head?_eq hLh]
        obtain ⟨hm1, hm2, hm3⟩ := hLmem m (mem_of_head?_eq hLh)
        cases hRl : R.getLast? with
        | none =>
            rw [getLastD_of_getLast?_none hRl]
            dsimp only
            have e1 : |m - h| = h - m := by rw [abs_sub_comm]; exact abs_of_nonneg (by omega)
            have e2 : |0 - m| = m := by rw [abs_sub_comm]; rw [show m - 0 = m by ring]; exact abs_of_nonneg hm2
            omega
        | some A =>
            rw [getLastD_of_getLast?_eq hRl]
            dsimp only
            obtain ⟨hA1, hA2, hA3⟩ := hRmem A (mem_of_getLast?_eq hRl)
            have e1 : |m - h| = h - m := by rw [abs_sub_comm]; exact abs_of_nonneg (by omega)
            have e2 : |0 - m| = m := by rw [abs_sub_comm]; rw [show m - 0 = m by ring]; exact abs_of_nonneg hm2
            have e3 : |A - 0| = A := by rw [show A - 0 = A by ring]; exact abs_of_nonneg hA2
            omega

theorem stats_look_eq (reqs : List ℤ) (h : ℤ) (d : String)
    (hrange : ∀ r ∈ reqs, 0 ≤ r ∧ r ≤ DISK_MAX)
    (hh0 : 0 ≤ h) (hhM : h ≤ DISK_MAX) (hnm : h ∉ reqs) :
    totalSeekOf (calculateSimulationHistory "look" reqs h d)
      = getAlgorithmStats "look" reqs h d := by
  have hS : (List.insertionSort (fun x1 x2 => x1 ≤ x2) (toSetList reqs)).Sorted (· ≤ ·) :=
    sortedReqs_sorted reqs
  have hSb : ∀ x ∈ List.insertionSort (fun x1 x2 => x1 ≤ x2) (toSetList reqs),
      0 ≤ x ∧ x ≤ DISK_MAX := fun x hx => hrange x (mem_sortedReqs.mp hx)
  have hmemS : h ∉ List.insertionSort (fun x1 x2 => x1 ≤ x2) (toSetList reqs) :=
    fun hc => hnm (mem_sortedReqs.mp hc)
  set S := List.insertionSort (fun x1 x2 => x1 ≤ x2) (toSetList reqs) with hSdef
  set L := S.filter (fun r => decide (r < h)) with hLdef
  set R := S.filter (fun r => decide (h ≤ r)) with hRdef
  have hLmem : ∀ x ∈ L, x < h ∧ 0 ≤ x ∧ x ≤ DISK_MAX := by
    intro x hx
    obtain ⟨hxS, hxd⟩ := List.mem_filter.mp hx
    exact ⟨by simpa using hxd, (hSb x hxS).1, (hSb x hxS).2⟩
  have hRmem : ∀ x ∈ R, h ≤ x ∧ 0 ≤ x ∧ x ≤ DISK_MAX := by
    intro x hx
    obtain ⟨hxS, hxd⟩ := List.mem_filter.mp hx
    exact ⟨by simpa using hxd, (hSb x hxS).1, (hSb x hxS).2⟩
  have hLs : L.Sorted (· ≤ ·) := hS.filter _
  have hRs : R.Sorted (· ≤ ·) := hS.filter _
  have hnR : h ∉ R := fun hc => hnm (mem_sortedReqs.mp (List.mem_filter.mp hc).1)
  set st0 : GenState := ⟨h, 0, [], [], [initStep h]⟩ with hst0
  have hsync0 : st0.history.getLast? = some (snap st0) := by rw [hst0]; rfl
  have hst0head : st0.head = h := by rw [hst0]
  have hst0seek : st0.seek = 0 := by rw [hst0]
  by_cases hd : d = "right"
  · have hskip : serveFoldSkip h st0 R = serveFold st0 R :=
      serveFoldSkip_eq_of_not_mem h R st0 hnR
    have hchR : List.Chain (· ≤ ·) st0.head R := by
      rw [hst0]
      exact chain_le_of_sorted h R hRs (fun x hx => (hRmem x hx).1)
    obtain ⟨hh1, hs1⟩ := serveFold_asc R st0 hchR
    set st1 := serveFold st0 R with hst1
    rw [hst0head] at hh1
    rw [hst0head, hst0seek] at hs1
    have hhA : h ≤ st1.head := by
      rw [hh1]
      rcases getLastD_cases R h with hc | hc
      · rw [hc]
      · exact (hRmem _ hc).1
    have hchL : List.Chain (· ≥ ·) st1.head L.reverse :=
      chain_ge_reverse _ L hLs (fun x hx => le_trans (le_of_lt (hLmem x hx).1) hhA)
    obtain ⟨hh2, hs2⟩ := serveFold_desc L.reverse st1 hchL
    set st2 := serveFold st1 L.reverse with hst2
    have hrun : runAlgorithm "look" reqs h d [initStep h] = st2.history := by
      rw [hd]
      show calculateLookPath reqs h "right" [initStep h] = st2.history
      unfold calculateLookPath
      dsimp only
      rw [← hSdef, ← hLdef, ← hRdef, ← hst0]
      rw [if_neg hmemS, if_pos rfl]
      rw [hskip]
    have hsync : st2.history.getLast? = some (snap st2) := by
      rw [hst2]
      refine synced_serveFold _ _ ?_
      rw [hst1]
      exact synced_serveFold _ _ hsync0
    rw [totalSeekOf_run "look" reqs h d st2 hrun hsync]
    simp only [getAlgorithmStats, String.reduceEq, reduceIte]
    rw [if_pos hd]
    rw [← hSdef, ← hLdef, ← hRdef]
    rw [hs2, hs1, getLastD_reverse, hh1]
    cases hRl : R.getLast? with
    | none =>
        rw [getLastD_of_getLast?_none hRl]
        cases hLh : L.head? with
        | none =>
            rw [headD_of_head?_none hLh]
            dsimp only
            omega
        | some m =>
            rw [headD_of_head?_eq hLh]
            dsimp only
            obtain ⟨hm1, hm2, hm3⟩ := hLmem m (mem_of_head?_eq hLh)
            have e1 : |m - h| = h - m := by
              rw [abs_sub_comm]; exact abs_of_nonneg (by omega)
            omega
    | some A =>
        rw [getLastD_of_getLast?_eq hRl]
        obtain ⟨hA1, hA2, hA3⟩ := hRmem A (mem_of_getLast?_eq hRl)
        cases hLh : L.head? with
        | none =>
            rw [headD_of_head?_none hLh]
            dsimp only
            have e1 : |A - h| = A - h := abs_of_nonneg (by omega)
            omega
        | some m =>
            rw [headD_of_head?_eq hLh]
            dsimp only
            obtain ⟨hm1, hm2, hm3⟩ := hLmem m (mem_of_head?_eq hLh)
            have e1 : |A - h| = A - h := abs_of_nonneg (by omega)
            have e2 : |m - A| = A - m := by
              rw [abs_sub_comm]; exact abs_of_nonneg (by omega)
            omega
  · have hchL : List.Chain (· ≥ ·) st0.head L.reverse := by
      rw [hst0]
      exact chain_ge_reverse h L hLs (fun x hx => le_of_lt (hLmem x hx).1)
    obtain ⟨hh1, hs1⟩ := serveFold_desc L.reverse st0 hchL
    set st1 := serveFold st0 L.reverse with hst1
    rw [hst0head] at hh1
    rw [hst0head, hst0seek] at hs1
    rw [getLastD_reverse] at hh1 hs1
    have hmh : st1.head ≤ h := by
      rw [hh1]
      rcases headD_cases L h with hc | hc
      · rw [hc]
      · exact le_of_lt (hLmem _ hc).1
    have hskip : serveFoldSkip h st1 R = serveFold st1 R :=
      serveFoldSkip_eq_of_not_mem h R st1 hnR
    have hchR : List.Chain (· ≤ ·) st1.head R :=
      chain_le_of_sorted _ R hRs (fun x hx => le_trans hmh (hRmem x hx).1)
    obtain ⟨hh2, hs2⟩ := serveFold_asc R st1 hchR
    set st2 := serveFold st1 R with hst2
    have hrun : runAlgorithm "look" reqs h d [initStep h] = st2.history := by
      show calculateLookPath reqs h d [initStep h] = st2.history
      unfold calculateLookPath
      dsimp only
      rw [← hSdef, ← hLdef, ← hRdef, ← hst0]
      rw [if_neg hmemS, if_neg hd]
      rw [← hst1, hskip]
    have hsync : st2.history.getLast? = some (snap st2) := by
      rw [hst2]
      refine synced_serveFold _ _ ?_
      rw [hst1]
      exact synced_serveFold _ _ hsync0
    rw [totalSeekOf_run "look" reqs h d st2 hrun hsync]
    simp only [getAlgorithmStats, String.reduceEq, reduceIte]
    rw [if_neg hd]
    rw [← hSdef, ← hLdef, ← hRdef]
    rw [hs2, hs1, hh1]
    cases hLh : L.head? with
    | none =>
        rw [headD_of_head?_none hLh]
        cases hRl : R.getLast? with
        | none =>
            rw [getLastD_of_getLast?_none hRl]
            dsimp only
            omega
        | some A =>
            rw [getLastD_of_getLast?_eq hRl]
            dsimp only
            obtain ⟨hA1, hA2, hA3⟩ := hRmem A (mem_of_getLast?_eq hRl)
            have e1 : |A - h| = A - h := abs_of_nonneg (by omega)
            omega
    | some m =>
        rw [headD_of_head?_eq hLh]
        obtain ⟨hm1, hm2, hm3⟩ := hLmem m (mem_of_head?_eq hLh)
        cases hRl : R.getLast? with
        | none =>
            rw [getLastD_of_getLast?_none hRl]
            dsimp only
            have e1 : |m - h| = h - m := by
              rw [abs_sub_comm]; exact abs_of_nonneg (by omega)
            omega
        | some A =>
            rw [getLastD_of_getLast?_eq hRl]
            dsimp only
            obtain ⟨hA1, hA2, hA3⟩ := hRmem A (mem_of_getLast?_eq hRl)
            have e1 : |m - h| = h - m := by
              rw [abs_sub_comm]; exact abs_of_nonneg (by omega)
            have e2 : |A - m| = A - m := abs_of_nonneg (by omega)
            omega

theorem stats_cscan_eq (reqs : List ℤ) (h : ℤ) (d : String)
    (hrange : ∀ r ∈ reqs, 0 ≤ r ∧ r ≤ DISK_MAX)
    (hh0 : 0 ≤ h) (hhM : h ≤ DISK_MAX) (hnm : h ∉ reqs) :
    totalSeekOf (calculateSimulationHistory "c-scan" reqs h d)
      = getAlgorithmStats "c-scan" reqs h d := by
  have hS : (List.insertionSort (fun x1 x2 => x1 ≤ x2) (toSetList reqs)).Sorted (· ≤ ·) :=
    sortedReqs_sorted reqs
  have hSb : ∀ x ∈ List.insertionSort (fun x1 x2 => x1 ≤ x2) (toSetList reqs),
      0 ≤ x ∧ x ≤ DISK_MAX := fun x hx => hrange x (mem_sortedReqs.mp hx)
  have hmemS : h ∉ List.insertionSort (fun x1 x2 => x1 ≤ x2) (toSetList reqs) :=
    fun hc => hnm (mem_sortedReqs.mp hc)
  set S := List.insertionSort (fun x1 x2 => x1 ≤ x2) (toSetList reqs) with hSdef
  set L := S.filter (fun r => decide (r < h)) with hLdef
  set R := S.filter (fun r => decide (h ≤ r)) with hRdef
  have hLmem : ∀ x ∈ L, x < h ∧ 0 ≤ x ∧ x ≤ DISK_MAX := by
    intro x hx
    obtain ⟨hxS, hxd⟩ := List.mem_filter.mp hx
    exact ⟨by simpa using hxd, (hSb x hxS).1, (hSb x hxS).2⟩
  have hRmem : ∀ x ∈ R, h ≤ x ∧ 0 ≤ x ∧ x ≤ DISK_MAX := by
    intro x hx
    obtain ⟨hxS, hxd⟩ := List.mem_filter.mp hx
    exact ⟨by simpa using hxd, (hSb x hxS).1, (hSb x hxS).2⟩
  have hLs : L.Sorted (· ≤ ·) := hS.filter _
  have hRs : R.Sorted (· ≤ ·) := hS.filter _
  have hnR : h ∉ R := fun hc => hnm (mem_sortedReqs.mp (List.mem_filter.mp hc).1)
  set st0 : GenState := ⟨h, 0, [], [], [initStep h]⟩ with hst0
  have hsync0 : st0.history.getLast? = some (snap st0) := by rw [hst0]; rfl
  have hst0head : st0.head = h := by rw [hst0]
  have hst0seek : st0.seek = 0 := by rw [hst0]
  by_cases hd : d = "right"
  · have hskip : serveFoldSkip h st0 R = serveFold st0 R :=
      serveFoldSkip_eq_of_not_mem h R st0 hnR
    have hchR : List.Chain (· ≤ ·) st0.head R := by
      rw [hst0]
      exact chain_le_of_sorted h R hRs (fun x hx => (hRmem x hx).1)
    obtain ⟨hh1, hs1⟩ := serveFold_asc R st0 hchR
    set st1 := serveFold st0 R with hst1
    rw [hst0head] at hh1
    rw [hst0head, hst0seek] at hs1
    have hA : st1.head ≤ DISK_MAX := by
      rw [hh1]
      rcases getLastD_cases R h with hc | hc
      · rw [hc]; exact hhM
      · exact (hRmem _ hc).2.2
    obtain ⟨hh2, hs2⟩ := condGoTo_head_seek_ge st1 DISK_MAX hA
    set st2 := if st1.head ≠ DISK_MAX then pushStep (goTo st1 DISK_MAX) else st1 with hst2
    set st3 := pushStep { st2 with seek := st2.seek + DISK_MAX, head := 0 } with hst3
    have hh3 : st3.head = 0 := by rw [hst3]; rfl
    have hs3 : st3.seek = st2.seek + DISK_MAX := by rw [hst3]; rfl
    have hchL : List.Chain (· ≤ ·) st3.head L := by
      rw [hh3]
      exact chain_le_of_sorted 0 L hLs (fun x hx => (hLmem x hx).2.1)
    obtain ⟨hh4, hs4⟩ := serveFold_asc L st3 hchL
    set st4 := serveFold st3 L with hst4
    have hrun : runAlgorithm "c-scan" reqs h d [initStep h] = st4.history := by
      rw [hd]
      show calculateCScanPath reqs h "right" [initStep h] = st4.history
      unfold calculateCScanPath
      dsimp only
      rw [← hSdef, ← hLdef, ← hRdef, ← hst0]
      rw [if_neg hmemS, if_pos rfl]
      rw [hskip, ← hst2, ← hst3]
    have hsync : st4.history.getLast? = some (snap st4) := by
      rw [hst4]
      refine synced_serveFold _ _ ?_
      rw [hst3]
      exact synced_pushStep _
    rw [totalSeekOf_run "c-scan" reqs h d st4 hrun hsync]
    simp only [getAlgorithmStats, String.reduceEq, reduceIte]
    rw [if_pos hd]
    rw [← hSdef, ← hLdef, ← hRdef]
    rw [hs4, hs3, hs2, hs1, hh3, hh1]
    cases hRl : R.getLast? with
    | none =>
        rw [getLastD_of_getLast?_none hRl]
        cases hLl : L.getLast? with
        | none =>
            rw [getLastD_of_getLast?_none hLl]
            dsimp only
            have e1 : |DISK_MAX - h| = DISK_MAX - h := abs_of_nonneg (by omega)
            omega
        | some mL =>
            rw [getLastD_of_getLast?_eq hLl]
            dsimp only
            obtain ⟨hm1, hm2, hm3⟩ := hLmem mL (mem_of_getLast?_eq hLl)
            have e1 : |DISK_MAX - h| = DISK_MAX - h := abs_of_nonneg (by omega)
            have e2 : |mL - 0| = mL := by
              rw [show mL - 0 = mL by ring]; exact abs_of_nonneg hm2
            omega
    | some A =>
        rw [getLastD_of_getLast?_eq hRl]
        obtain ⟨hA1, hA2, hA3⟩ := hRmem A (mem_of_getLast?_eq hRl)
        cases hLl : L.getLast? with
        | none =>
            rw [getLastD_of_getLast?_none hLl]
            dsimp only
            have e1 : |A - h| = A - h := abs_of_nonneg (by omega)
            have e2 : |DISK_MAX - A| = DISK_MAX - A := abs_of_nonneg (by omega)
            omega
        | some mL =>
            rw [getLastD_of_getLast?_eq hLl]
            dsimp only
            obtain ⟨hm1, hm2, hm3⟩ := hLmem mL (mem_of_getLast?_eq hLl)
            have e1 : |A - h| = A - h := abs_of_nonneg (by omega)
            have e2 : |DISK_MAX - A| = DISK_MAX - A := abs_of_nonneg (by omega)
            have e3 : |mL - 0| = mL := by
              rw [show mL - 0 = mL by ring]; exact abs_of_nonneg hm2
            omega
  · have hchL : List.Chain (· ≥ ·) st0.head L.reverse := by
      rw [hst0]
      exact chain_ge_reverse h L hLs (fun x hx => le_of_lt (hLmem x hx).1)
    obtain ⟨hh1, hs1⟩ := serveFold_desc L.reverse st0 hchL
    set st1 := serveFold st0 L.reverse with hst1
    rw [hst0head] at hh1
    rw [hst0head, hst0seek] at hs1
    rw [getLastD_reverse] at hh1 hs1
    have hm0 : 0 ≤ st1.head := by
      rw [hh1]
      rcases headD_cases L h with hc | hc
      · rw [hc]; exact hh0
      · exact (hLmem _ hc).2.1
    obtain ⟨hh2, hs2⟩ := condGoTo_head_seek_le st1 0 hm0
    set st2 := if st1.head ≠ 0 then pushStep (goTo st1 0) else st1 with hst2
    set st3 := pushStep { st2 with seek := st2.seek + DISK_MAX, head := DISK_MAX } with hst3
    have hh3 : st3.head = DISK_MAX := by rw [hst3]; rfl
    have hs3 : st3.seek = st2.seek + DISK_MAX := by rw [hst3]; rfl
    have hnRrev : h ∉ R.reverse := fun hc => hnR (List.mem_reverse.mp hc)
    have hskip : serveFoldSkip h st3 R.reverse = serveFold st3 R.reverse :=
      serveFoldSkip_eq_of_not_mem h R.reverse st3 hnRrev
    have hchR : List.Chain (· ≥ ·) st3.head R.reverse := by
      rw [hh3]
      exact chain_ge_reverse DISK_MAX R hRs (fun x hx => (hRmem x hx).2.2)
    obtain ⟨hh4, hs4⟩ := serveFold_desc R.reverse st3 hchR
    set st4 := serveFold st3 R.reverse with hst4
    have hrun : runAlgorithm "c-scan" reqs h d [initStep h] = st4.history := by
      show calculateCScanPath reqs h d [initStep h] = st4.history
      unfold calculateCScanPath
      dsimp only
      rw [← hSdef, ← hLdef, ← hRdef, ← hst0]
      rw [if_neg hmemS, if_neg hd]
      rw [← hst1, ← hst2, ← hst3, hskip]
    have hsync : st4.history.getLast? = some (snap st4) := by
      rw [hst4]
      refine synced_serveFold _ _ ?_
      rw [hst3]
      exact synced_pushStep _
    rw [totalSeekOf_run "c-scan" reqs h d st4 hrun hsync]
    simp only [getAlgorithmStats, String.reduceEq, reduceIte]
    rw [if_neg hd]
    rw [← hSdef, ← hLdef, ← hRdef]
    rw [hs4, hs3, hs2, hs1, getLastD_reverse, hh3, hh1]
    cases hLh : L.head? with
    | none =>
        rw [headD_of_head?_none hLh]
        cases hRh : R.head? with
        | none =>
            rw [headD_of_head?_none hRh]
            dsimp only
            have e1 : |0 - h| = h := by
              rw [abs_sub_comm, show h - 0 = h by ring]; exact abs_of_nonneg hh0
            omega
        | some mR =>
            rw [headD_of_head?_eq hRh]
            dsimp only
            obtain ⟨hm1, hm2, hm3⟩ := hRmem mR (mem_of_head?_eq hRh)
            have e1 : |0 - h| = h := by
              rw [abs_sub_comm, show h - 0 = h by ring]; exact abs_of_nonneg hh0
            have e2 : |mR - DISK_MAX| = DISK_MAX - mR := by
              rw [abs_sub_comm]; exact abs_of_nonneg (by omega)
            omega
    | some m =>
        rw [headD_of_head?_eq hLh]
        obtain ⟨hm1, hm2, hm3⟩ := hLmem m (mem_of_head?_eq hLh)
        cases hRh : R.head? with
        | none =>
            rw [headD_of_head?_none hRh]
            dsimp only
            have e1 : |m - h| = h - m := by
              rw [abs_sub_comm]; exact abs_of_nonneg (by omega)
            have e2 : |0 - m| = m := by
              rw [abs_sub_comm, show m - 0 = m by ring]; exact abs_of_nonneg hm2
            omega
        | some mR =>
            rw [headD_of_head?_eq hRh]
            dsimp only
            obtain ⟨hr1, hr2, hr3⟩ := hRmem mR (mem_of_head?_eq hRh)
            have e1 : |m - h| = h - m := by
              rw [abs_sub_comm]; exact abs_of_nonneg (by omega)
            have e2 : |0 - m| = m := by
              rw [abs_sub_comm, show m - 0 = m by ring]; exact abs_of_nonneg hm2
            have e3 : |mR - DISK_MAX| = DISK_MAX - mR := by
              rw [abs_sub_comm]; exact abs_of_nonneg (by omega)
            omega

theorem sorted_le_getLast? {l : List ℤ} (hs : l.Sorted (· ≤ ·)) {a : ℤ}
    (ha : l.getLast? = some a) : ∀ x ∈ l, x ≤ a := by
  induction l with
  | nil => intro x hx; cases hx
  | cons y ys ih =>
    intro x hx
    cases ys with
    | nil =>
        cases ha
        rcases List.mem_cons.mp hx with rfl | hx
        · exact le_refl _
        · cases hx
    | cons z zs =>
        rw [List.getLast?_cons_cons] at ha
        have hs' : (z :: zs).Sorted (· ≤ ·) := (List.sorted_cons.mp hs).2
        rcases List.mem_cons.mp hx with rfl | hx
        · have hza : z ≤ a := ih hs' ha z (List.mem_cons_self _ _)
          have hyz : x ≤ z := (List.sorted_cons.mp hs).1 z (List.mem_cons_self _ _)
          omega
        · exact ih hs' ha x hx

theorem getLast?_cons_eq (f : ℤ) (rest : List ℤ) :
    (f :: rest).getLast? = some (rest.getLastD f) := by
  rw [List.getLast?_eq_getLast _ (List.cons_ne_nil f rest), List.getLast_eq_getLastD]

theorem stats_clook_eq (reqs : List ℤ) (h : ℤ) (d : String)
    (hrange : ∀ r ∈ reqs, 0 ≤ r ∧ r ≤ DISK_MAX)
    (hh0 : 0 ≤ h) (hhM : h ≤ DISK_MAX) (hnm : h ∉ reqs) :
    totalSeekOf (calculateSimulationHistory "c-look" reqs h d)
      = getAlgorithmStats "c-look" reqs h d := by
  have hS : (List.insertionSort (fun x1 x2 => x1 ≤ x2) (toSetList reqs)).Sorted (· ≤ ·) :=
    sortedReqs_sorted reqs
  have hSb : ∀ x ∈ List.insertionSort (fun x1 x2 => x1 ≤ x2) (toSetList reqs),
      0 ≤ x ∧ x ≤ DISK_MAX := fun x hx => hrange x (mem_sortedReqs.mp hx)
  have hmemS : h ∉ List.insertionSort (fun x1 x2 => x1 ≤ x2) (toSetList reqs) :=
    fun hc => hnm (mem_sortedReqs.mp hc)
  set S := List.insertionSort (fun x1 x2 => x1 ≤ x2) (toSetList reqs) with hSdef
  set L := S.filter (fun r => decide (r < h)) with hLdef
  set R := S.filter (fun r => decide (h ≤ r)) with hRdef
  have hLmem : ∀ x ∈ L, x < h ∧ 0 ≤ x ∧ x ≤ DISK_MAX := by
    intro x hx
    obtain ⟨hxS, hxd⟩ := List.mem_filter.mp hx
    exact ⟨by simpa using hxd, (hSb x hxS).1, (hSb x hxS).2⟩
  have hRmem : ∀ x ∈ R, h ≤ x ∧ 0 ≤ x ∧ x ≤ DISK_MAX := by
    intro x hx
    obtain ⟨hxS, hxd⟩ := List.mem_filter.mp hx
    exact ⟨by simpa using hxd, (hSb x hxS).1, (hSb x hxS).2⟩
  have hLs : L.Sorted (· ≤ ·) := hS.filter _
  have hRs : R.Sorted (· ≤ ·) := hS.filter _
  have hnR : h ∉ R := fun hc => hnm (mem_sortedReqs.mp (List.mem_filter.mp hc).1)
  set st0 : GenState := ⟨h, 0, [], [], [initStep h]⟩ with hst0
  have hsync0 : st0.history.getLast? = some (snap st0) := by rw [hst0]; rfl
  have hst0head : st0.head = h := by rw [hst0]
  have hst0seek : st0.seek = 0 := by rw [hst0]
  by_cases hd : d = "right"
  · have hskip : serveFoldSkip h st0 R = serveFold st0 R :=
      serveFoldSkip_eq_of_not_mem h R st0 hnR
    have hchR : List.Chain (· ≤ ·) st0.head R := by
      rw [hst0]
      exact chain_le_of_sorted h R hRs (fun x hx => (hRmem x hx).1)
    obtain ⟨hh1, hs1⟩ := serveFold_asc R st0 hchR
    set st1 := serveFold st0 R with hst1
    rw [hst0head] at hh1
    rw [hst0head, hst0seek] at hs1
    have hhA : h ≤ st1.head := by
      rw [hh1]
      rcases getLastD_cases R h with hc | hc
      · rw [hc]
      · exact (hRmem _ hc).1
    cases hL : L with
    | nil =>
        have hrun : runAlgorithm "c-look" reqs h d [initStep h] = st1.history := by
          rw [hd]
          show calculateCLookPath reqs h "right" [initStep h] = st1.history
          unfold calculateCLookPath
          dsimp only
          rw [← hSdef, ← hLdef, ← hRdef, ← hst0]
          rw [if_neg hmemS, if_pos rfl]
          rw [hskip, hL]
        have hsync : st1.history.getLast? = some (snap st1) := by
          rw [hst1]
          exact synced_serveFold _ _ hsync0
        rw [totalSeekOf_run "c-look" reqs h d st1 hrun hsync]
        simp only [getAlgorithmStats, String.reduceEq, reduceIte]
        rw [if_pos hd]
        rw [← hSdef, ← hLdef, ← hRdef]
        rw [hL, hs1]
        simp only [List.head?_nil, List.getLast?_nil]
        cases hRl : R.getLast? with
        | none =>
            rw [getLastD_of_getLast?_none hRl]
            dsimp only
            omega
        | some A =>
            rw [getLastD_of_getLast?_eq hRl]
            obtain ⟨hA1, hA2, hA3⟩ := hRmem A (mem_of_getLast?_eq hRl)
            dsimp only
            have e1 : |A - h| = A - h := abs_of_nonneg (by omega)
            omega
    | cons f rest =>
        have hfL : f ∈ L := by rw [hL]; exact List.mem_cons_self _ _
        obtain ⟨hf1, hf2, hf3⟩ := hLmem f hfL
        have hfA : f ≤ st1.head := le_trans (le_of_lt hf1) hhA
        set st2 := serveStep st1 f with hst2
        have hh2 : st2.head = f := by rw [hst2]; rfl
        have hs2 : st2.seek = st1.seek + (st1.head - f) := by
          rw [hst2, serveStep_seek]
          have : |f - st1.head| = st1.head - f := by
            rw [abs_sub_comm]; exact abs_of_nonneg (by omega)
          omega
        have hchrest : List.Chain (· ≤ ·) st2.head rest := by
          rw [hh2]
          rw [hL] at hLs
          rw [List.chain_iff_pairwise]
          exact hLs
        obtain ⟨hh3, hs3⟩ := serveFold_asc rest st2 hchrest
        set st3 := serveFold st2 rest with hst3
        have hrun : runAlgorithm "c-look" reqs h d [initStep h] = st3.history := by
          rw [hd]
          show calculateCLookPath reqs h "right" [initStep h] = st3.history
          unfold calculateCLookPath
          dsimp only
          rw [← hSdef, ← hLdef, ← hRdef, ← hst0]
          rw [if_neg hmemS, if_pos rfl]
          rw [hskip, hL]
        have hsync : st3.history.getLast? = some (snap st3) := by
          rw [hst3]
          refine synced_serveFold _ _ ?_
          rw [hst2]
          exact synced_serveStep _ _
        rw [totalSeekOf_run "c-look" reqs h d st3 hrun hsync]
        simp only [getAlgorithmStats, String.reduceEq, reduceIte]
        rw [if_pos hd]
        rw [← hSdef, ← hLdef, ← hRdef]
        rw [hL, List.head?_cons, getLast?_cons_eq]
        rw [hs3, hs2, hs1, hh2, hh1]
        have hflast : f ≤ rest.getLastD f := by
          rcases getLastD_cases rest f with hc | hc
          · omega
          · rw [hL] at hLs
            exact (List.sorted_cons.mp hLs).1 _ hc
        cases hRl : R.getLast? with
        | none =>
            rw [getLastD_of_getLast?_none hRl]
            dsimp only
            have e1 : |f - h| = h - f := by
              rw [abs_sub_comm]; exact abs_of_nonneg (by omega)
            have e2 : |rest.getLastD f - f| = rest.getLastD f - f :=
              abs_of_nonneg (by omega)
            omega
        | some A =>
            rw [getLastD_of_getLast?_eq hRl]
            obtain ⟨hA1, hA2, hA3⟩ := hRmem A (mem_of_getLast?_eq hRl)
            dsimp only
            have e1 : |A - h| = A - h := abs_of_nonneg (by omega)
            have e2 : |f - A| = A - f := by
              rw [abs_sub_comm]; exact abs_of_nonneg (by omega)
            have e3 : |rest.getLastD f - f| = rest.getLastD f - f :=
              abs_of_nonneg (by omega)
            omega
  · have hchL : List.Chain (· ≥ ·) st0.head L.reverse := by
      rw [hst0]
      exact chain_ge_reverse h L hLs (fun x hx => le_of_lt (hLmem x hx).1)
    obtain ⟨hh1, hs1⟩ := serveFold_desc L.reverse st0 hchL
    set st1 := serveFold st0 L.reverse with hst1
    rw [hst0head] at hh1
    rw [hst0head, hst0seek] at hs1
    rw [getLastD_reverse] at hh1 hs1
    have hmh : st1.head ≤ h := by
      rw [hh1]
      rcases headD_cases L h with hc | hc
      · rw [hc]
      · exact le_of_lt (hLmem _ hc).1
    cases hRl : R.getLast? with
    | none =>
        have hRnil : R = [] := List.getLast?_eq_none_iff.mp hRl
        have hrun : runAlgorithm "c-look" reqs h d [initStep h] = st1.history := by
          show calculateCLookPath reqs h d [initStep h] = st1.history
          unfold calculateCLookPath
          dsimp only
          rw [← hSdef, ← hLdef, ← hRdef, ← hst0]
          rw [if_neg hmemS, if_neg hd]
          rw [← hst1, hRl]
        have hsync : st1.history.getLast? = some (snap st1) := by
          rw [hst1]
          exact synced_serveFold _ _ hsync0
        rw [totalSeekOf_run "c-look" reqs h d st1 hrun hsync]
        simp only [getAlgorithmStats, String.reduceEq, reduceIte]
        rw [if_neg hd]
        rw [← hSdef, ← hLdef, ← hRdef]
        rw [hRnil]
        simp only [List.head?_nil, List.getLast?_nil]
        rw [hs1]
        cases hLh : L.head? with
        | none =>
            rw [headD_of_head?_none hLh]
            dsimp only
            omega
        | some m =>
            rw [headD_of_head?_eq hLh]
            obtain ⟨hm1, hm2, hm3⟩ := hLmem m (mem_of_head?_eq hLh)
            dsimp only
            have e1 : |m - h| = h - m := by
              rw [abs_sub_comm]; exact abs_of_nonneg (by omega)
            omega
    | some A =>
        obtain ⟨hA1, hA2, hA3⟩ := hRmem A (mem_of_getLast?_eq hRl)
        have hRne : R ≠ [] := List.ne_nil_of_mem (mem_of_getLast?_eq hRl)
        have hAmax : ∀ x ∈ R, x ≤ A := sorted_le_getLast? hRs hRl
        have hAh : A ≠ h := fun hc => hnR (hc ▸ mem_of_getLast?_eq hRl)
        set st2 := goTo st1 A with hst2
        have hh2 : st2.head = A := by rw [hst2]; rfl
        have hs2 : st2.seek = st1.seek + (A - st1.head) := by
          rw [hst2, goTo_seek]
          have : |A - st1.head| = A - st1.head := abs_of_nonneg (by omega)
          omega
        have hguard : st2.head ≠ h := by rw [hh2]; exact hAh
        set st3 := pushStep (markServed st2 A) with hst3
        have hh3 : st3.head = A := by rw [hst3, pushStep_head, markServed_head, hh2]
        have hs3 : st3.seek = st2.seek := by rw [hst3, pushStep_seek, markServed_seek]
        have hnRd : h ∉ R.dropLast.reverse := fun hc =>
          hnR ((List.dropLast_sublist R).subset (List.mem_reverse.mp hc))
        have hskip : serveFoldSkip h st3 R.dropLast.reverse
            = serveFold st3 R.dropLast.reverse :=
          serveFoldSkip_eq_of_not_mem h _ st3 hnRd
        have hRds : R.dropLast.Sorted (· ≤ ·) := hRs.sublist (List.dropLast_sublist R)
        have hchRd : List.Chain (· ≥ ·) st3.head R.dropLast.reverse := by
          rw [hh3]
          exact chain_ge_reverse A R.dropLast hRds
            (fun x hx => hAmax x ((List.dropLast_sublist R).subset hx))
        obtain ⟨hh4, hs4⟩ := serveFold_desc R.dropLast.reverse st3 hchRd
        set st4 := serveFold st3 R.dropLast.reverse with hst4
        have hrun : runAlgorithm "c-look" reqs h d [initStep h] = st4.history := by
          show calculateCLookPath reqs h d [initStep h] = st4.history
          unfold calculateCLookPath
          dsimp only
          rw [← hSdef, ← hLdef, ← hRdef, ← hst0]
          rw [if_neg hmemS, if_neg hd]
          rw [← hst1, hRl]
          dsimp only
          rw [← hst2, if_pos hguard, ← hst3, hskip]
        have hsync : st4.history.getLast? = some (snap st4) := by
          rw [hst4]
          refine synced_serveFold _ _ ?_
          rw [hst3]
          exact synced_pushStep _
        rw [totalSeekOf_run "c-look" reqs h d st4 hrun hsync]
        simp only [getAlgorithmStats, String.reduceEq, reduceIte]
        rw [if_neg hd]
        rw [← hSdef, ← hLdef, ← hRdef]
        rw [hs4, hs3, hs2, hs1, getLastD_reverse, hh3, hh1, hRl]
        have hdh : R.dropLast.headD A = R.headD 0 := by
          rw [← getLastD_of_getLast?_eq hRl 0]
          exact dropLast_headD R 0 0 hRne
        rw [hdh]
        cases hRh : R.head? with
        | none => exact absurd (List.head?_eq_none_iff.mp hRh) hRne
        | some first =>
            rw [headD_of_head?_eq hRh]
            obtain ⟨hfi1, hfi2, hfi3⟩ := hRmem first (mem_of_head?_eq hRh)
            have hfiA : first ≤ A := hAmax first (mem_of_head?_eq hRh)
            cases hLh : L.head? with
            | none =>
                rw [headD_of_head?_none hLh]
                dsimp only
                have e1 : |A - h| = A - h := abs_of_nonneg (by omega)
                have e2 : |first - A| = A - first := by
                  rw [abs_sub_comm]; exact abs_of_nonneg (by omega)
                omega
            | some m =>
                rw [headD_of_head?_eq hLh]
                obtain ⟨hm1, hm2, hm3⟩ := hLmem m (mem_of_head?_eq hLh)
                dsimp only
                have e1 : |m - h| = h - m := by
                  rw [abs_sub_comm]; exact abs_of_nonneg (by omega)
                have e2 : |A - m| = A - m := abs_of_nonneg (by omega)
                have e3 : |first - A| = A - first := by
                  rw [abs_sub_comm]; exact abs_of_nonneg (by omega)
                omega

theorem fcfs_fold_seek_head (origSet : List ℤ) (l : List ℤ) :
    ∀ st : GenState,
      ((l.foldl (fun s req =>
          let s := goTo s req
          let s := if req ∈ origSet then markServed s req else s
          pushStep s) st).seek,
        (l.foldl (fun s req =>
          let s := goTo s req
          let s := if req ∈ origSet then markServed s req else s
          pushStep s) st).head)
      = l.foldl (fun p req => (p.1 + |req - p.2|, req)) (st.seek, st.head) := by
  induction l with
  | nil => intro st; rfl
  | cons x xs ih =>
    intro st
    rw [List.foldl_cons, List.foldl_cons]
    rw [ih]
    by_cases hm : x ∈ origSet <;> simp [hm]

theorem fcfs_fold_synced (origSet : List ℤ) (l : List ℤ) :
    ∀ st : GenState, st.history.getLast? = some (snap st) →
      (l.foldl (fun s req =>
          let s := goTo s req
          let s := if req ∈ origSet then markServed s req else s
          pushStep s) st).history.getLast?
        = some (snap (l.foldl (fun s req =>
          let s := goTo s req
          let s := if req ∈ origSet then markServed s req else s
          pushStep s) st)) := by
  induction l with
  | nil => intro st h; exact h
  | cons x xs ih =>
    intro st _
    rw [List.foldl_cons]
    exact ih _ (synced_pushStep _)

theorem stats_fcfs_eq (reqs : List ℤ) (h : ℤ) (d : String) :
    totalSeekOf (calculateSimulationHistory "fcfs" reqs h d)
      = getAlgorithmStats "fcfs" reqs h d := by
  set st0 : GenState := ⟨h, 0, [], [], [initStep h]⟩ with hst0
  have hsync0 : st0.history.getLast? = some (snap st0) := by rw [hst0]; rfl
  have hrun : runAlgorithm "fcfs" reqs h d [initStep h]
      = (reqs.foldl (fun s req =>
          let s := goTo s req
          let s := if req ∈ toSetList reqs then markServed s req else s
          pushStep s) st0).history := rfl
  have hsync := fcfs_fold_synced (toSetList reqs) reqs st0 hsync0
  rw [totalSeekOf_run "fcfs" reqs h d _ hrun hsync]
  have hfold := fcfs_fold_seek_head (toSetList reqs) reqs st0
  have hseek : (reqs.foldl (fun s req =>
      let s := goTo s req
      let s := if req ∈ toSetList reqs then markServed s req else s
      pushStep s) st0).seek
      = (reqs.foldl (fun p req => (p.1 + |req - p.2|, req)) (st0.seek, st0.head)).1 := by
    rw [← hfold]
  rw [hseek]
  have hs0 : (st0.seek, st0.head) = ((0 : ℤ), h) := by rw [hst0]
  rw [hs0]
  simp only [getAlgorithmStats, String.reduceEq, reduceIte]

theorem sstfLoop_seek_eq :
    ∀ (fuel : Nat) (st : GenState) (remaining : List ℤ),
      (sstfLoop fuel st remaining).seek = statsSstfLoop fuel st.head st.seek remaining := by
  intro fuel
  induction fuel with
  | zero => intro st remaining; rfl
  | succ n ih =>
    intro st remaining
    rw [sstfLoop, statsSstfLoop]
    cases sstfPick st.head remaining with
    | none => rfl
    | some dr =>
        rw [ih]
        rfl

theorem foldl_setAdd_of_disjoint :
    ∀ (l s : List ℤ), l.Nodup → (∀ x ∈ l, x ∉ s) → l.foldl setAdd s = s ++ l := by
  intro l
  induction l with
  | nil => intro s _ _; simp
  | cons x xs ih =>
    intro s hnd hdis
    rw [List.foldl_cons]
    have hx : x ∉ s := hdis x (List.mem_cons_self _ _)
    have hadd : setAdd s x = s ++ [x] := by rw [setAdd, if_neg hx]
    rw [hadd]
    rw [ih (s ++ [x]) (List.nodup_cons.mp hnd).2 ?_]
    · simp
    · intro y hy
      rw [List.mem_append]
      rintro (hys | hyx)
      · exact hdis y (List.mem_cons_of_mem _ hy) hys
      · rcases List.mem_singleton.mp hyx with rfl
        exact (List.nodup_cons.mp hnd).1 hy

theorem toSetList_idem (l : List ℤ) : toSetList (toSetList l) = toSetList l := by
  rw [toSetList]
  rw [foldl_setAdd_of_disjoint (toSetList l) [] (toSetList_nodup l) (by simp)]
  rfl

theorem stats_sstf_eq (reqs : List ℤ) (h : ℤ) (d : String) (hnm : h ∉ reqs) :
    totalSeekOf (calculateSimulationHistory "sstf" reqs h d)
      = getAlgorithmStats "sstf" reqs h d := by
  have hmem : h ∉ toSetList reqs := fun hc => hnm (mem_toSetList.mp hc)
  set st0 : GenState := ⟨h, 0, [], [], [initStep h]⟩ with hst0
  have hsync0 : st0.history.getLast? = some (snap st0) := by rw [hst0]; rfl
  have hrun : runAlgorithm "sstf" reqs h d [initStep h]
      = (sstfLoop (toSetList reqs).length st0 (toSetList reqs)).history := by
    show calculateSstfPath reqs h [initStep h]
      = (sstfLoop (toSetList reqs).length st0 (toSetList reqs)).history
    unfold calculateSstfPath
    dsimp only
    rw [if_neg hmem]
  have hsync := synced_sstfLoop (toSetList reqs).length st0 (toSetList reqs) hsync0
  rw [totalSeekOf_run "sstf" reqs h d _ hrun hsync]
  rw [sstfLoop_seek_eq]
  simp only [getAlgorithmStats, String.reduceEq, reduceIte]
  rw [toSetList_idem, if_neg hmem]

/-- The relation the spec asserts between consecutive Steps of a run:
cumulative seek never decreases, the served set only grows, and the
served order is only extended. -/
def stepRel (a b : Step) : Prop :=
  a.seek ≤ b.seek ∧ a.served ⊆ b.served ∧ ∃ t, b.servedOrder = a.servedOrder ++ t

/-- The per-Step properties the spec asserts: no duplicate entries in
`servedOrder`, the served set is exactly the served order (same elements,
first-served order), and the head stays on the disk. -/
def stepOk (s : Step) : Prop :=
  s.servedOrder.Nodup ∧ s.served = s.servedOrder ∧ 0 ≤ s.head ∧ s.head ≤ DISK_MAX

theorem stepRel_refl (a : Step) : stepRel a a :=
  ⟨le_refl _, fun _ hx => hx, [], by simp⟩

theorem stepRel_trans {a b c : Step} (h1 : stepRel a b) (h2 : stepRel b c) : stepRel a c := by
  obtain ⟨hs1, hsub1, t1, ht1⟩ := h1
  obtain ⟨hs2, hsub2, t2, ht2⟩ := h2
  exact ⟨le_trans hs1 hs2, fun x hx => hsub2 (hsub1 hx), t1 ++ t2, by rw [ht2, ht1]; simp⟩

/-- Invariant carried through a history-generating walk. -/
def goodState (st : GenState) : Prop :=
  st.servedOrder.Nodup ∧ st.served = st.servedOrder ∧
  0 ≤ st.head ∧ st.head ≤ DISK_MAX ∧
  List.Chain' stepRel (st.history ++ [snap st]) ∧
  (∀ s ∈ st.history, stepOk s)

theorem chain'_replace_last {l : List Step} {a b : Step}
    (hc : List.Chain' stepRel (l ++ [a])) (hab : stepRel a b) :
    List.Chain' stepRel (l ++ [b]) := by
  rcases List.chain'_append.mp hc with ⟨hl, _, hrel⟩
  refine List.chain'_append.mpr ⟨hl, List.chain'_singleton b, ?_⟩
  intro x hx y hy
  cases hy.symm.trans (rfl : ([b] : List Step).head? = some b) |>.symm with
  | _ => exact stepRel_trans (hrel x hx a rfl) hab

theorem snap_stepOk {st : GenState} (hg : goodState st) : stepOk (snap st) :=
  ⟨hg.1, hg.2.1, hg.2.2.1, hg.2.2.2.1⟩

theorem good_pushStep {st : GenState} (hg : goodState st) : goodState (pushStep st) := by
  obtain ⟨h1, h2, h3, h4, h5, h6⟩ := hg
  refine ⟨h1, h2, h3, h4, ?_, ?_⟩
  · rw [pushStep_history, snap_pushStep, List.append_assoc]
    refine List.chain'_append.mpr ⟨(List.chain'_append.mp h5).1, ?_, ?_⟩
    · exact List.chain'_pair.mpr (stepRel_refl _)
    · intro x hx y hy
      have := (List.chain'_append.mp h5).2.2 x hx y (by simpa using hy)
      exact this
  · intro s hs
    rw [pushStep_history] at hs
    rcases List.mem_append.mp hs with hs | hs
    · exact h6 s hs
    · rcases List.mem_singleton.mp hs with rfl
      exact ⟨h1, h2, h3, h4⟩

theorem good_goTo {st : GenState} (hg : goodState st) {t : ℤ}
    (ht0 : 0 ≤ t) (htM : t ≤ DISK_MAX) : goodState (goTo st t) := by
  obtain ⟨h1, h2, h3, h4, h5, h6⟩ := hg
  refine ⟨h1, h2, ht0, htM, ?_, h6⟩
  rw [goTo_history]
  refine chain'_replace_last h5 ?_
  refine ⟨?_, fun x hx => hx, [], by simp [snap]⟩
  show st.seek ≤ (goTo st t).seek
  rw [goTo_seek]
  have := abs_nonneg (t - st.head)
  omega

theorem good_markServed {st : GenState} (hg : goodState st) {r : ℤ}
    (hr : r ∉ st.served) (hr0 : 0 ≤ r) (hrM : r ≤ DISK_MAX) :
    goodState (markServed st r) := by
  obtain ⟨h1, h2, h3, h4, h5, h6⟩ := hg
  have hro : r ∉ st.servedOrder := by rw [← h2]; exact hr
  have hserved : setAdd st.served r = st.served ++ [r] := by rw [setAdd, if_neg hr]
  refine ⟨?_, ?_, h3, h4, ?_, h6⟩
  · rw [markServed_servedOrder]
    simpa [List.nodup_append] using ⟨h1, hro⟩
  · rw [markServed_served, markServed_servedOrder, hserved, h2]
  · rw [markServed_history]
    refine chain'_replace_last h5 ?_
    refine ⟨le_refl _, ?_, [r], ?_⟩
    · show st.served ⊆ (markServed st r).served
      rw [markServed_served, hserved]
      exact fun x hx => List.mem_append.mpr (Or.inl hx)
    · rfl

theorem good_serveStep {st : GenState} (hg : goodState st) {r : ℤ}
    (hr : r ∉ st.served) (hr0 : 0 ≤ r) (hrM : r ≤ DISK_MAX) :
    goodState (serveStep st r) :=
  good_pushStep (good_markServed (good_goTo hg hr0 hrM) hr hr0 hrM)

theorem serveStep_served (st : GenState) (r : ℤ) (hr : r ∉ st.served) :
    (serveStep st r).served = st.served ++ [r] := by
  show setAdd st.served r = st.served ++ [r]
  rw [setAdd, if_neg hr]

theorem good_serveFold (l : List ℤ) :
    ∀ st : GenState, goodState st → l.Nodup →
      (∀ x ∈ l, x ∉ st.served ∧ 0 ≤ x ∧ x ≤ DISK_MAX) →
      goodState (serveFold st l) ∧ (serveFold st l).served = st.served ++ l := by
  induction l with
  | nil => intro st hg _ _; exact ⟨hg, by simp [serveFold]⟩
  | cons x xs ih =>
    intro st hg hnd hfresh
    obtain ⟨hx1, hx2, hx3⟩ := hfresh x (List.mem_cons_self _ _)
    have hgx : goodState (serveStep st x) := good_serveStep hg hx1 hx2 hx3
    have hsx : (serveStep st x).served = st.served ++ [x] := serveStep_served st x hx1
    have hfresh' : ∀ y ∈ xs, y ∉ (serveStep st x).served ∧ 0 ≤ y ∧ y ≤ DISK_MAX := by
      intro y hy
      obtain ⟨hy1, hy2, hy3⟩ := hfresh y (List.mem_cons_of_mem _ hy)
      refine ⟨?_, hy2, hy3⟩
      rw [hsx]
      intro hc
      rcases List.mem_append.mp hc with hc | hc
      · exact hy1 hc
      · rcases List.mem_singleton.mp hc with rfl
        exact (List.nodup_cons.mp hnd).1 hy
    obtain ⟨hgood, hserved⟩ := ih (serveStep st x) hgx (List.nodup_cons.mp hnd).2 hfresh'
    rw [serveFold, List.foldl_cons]
    refine ⟨hgood, ?_⟩
    show (serveFold (serveStep st x) xs).served = st.served ++ x :: xs
    rw [hserved, hsx]
    simp

theorem good_serveFoldSkip (start : ℤ) (l : List ℤ) (st : GenState)
    (hg : goodState st) (hnd : l.Nodup)
    (hfresh : ∀ x ∈ l, x ≠ start → x ∉ st.served ∧ 0 ≤ x ∧ x ≤ DISK_MAX) :
    goodState (serveFoldSkip start st l) ∧
    (serveFoldSkip start st l).served = st.served ++ l.filter (fun r => r ≠ start) := by
  rw [serveFoldSkip_eq_filter]
  refine good_serveFold _ st hg (hnd.filter _) ?_
  intro x hx
  obtain ⟨hxl, hxd⟩ := List.mem_filter.mp hx
  exact hfresh x hxl (by simpa using hxd)

theorem good_move {st : GenState} (hg : goodState st) {a b : ℤ}
    (ha : 0 ≤ a) (hb0 : 0 ≤ b) (hbM : b ≤ DISK_MAX) :
    goodState { st with seek := st.seek + a, head := b } := by
  obtain ⟨h1, h2, h3, h4, h5, h6⟩ := hg
  refine ⟨h1, h2, hb0, hbM, ?_, h6⟩
  show List.Chain' stepRel (st.history ++ _)
  refine chain'_replace_last h5 ?_
  exact ⟨by show st.seek ≤ st.seek + a; omega, fun x hx => hx, [], by simp [snap]⟩

theorem sstfPick_aux_fst (head : ℤ) :
    ∀ (l : List ℤ) (acc : Option (ℤ × ℤ)) (dr : ℤ × ℤ),
    (∀ d0 : ℤ × ℤ, acc = some d0 → d0.1 = |d0.2 - head|) →
    (l.foldl (fun acc req =>
      match acc with
      | none => some (|req - head|, req)
      | some dr => if |req - head| < dr.1 then some (|req - head|, req) else some dr)
      acc) = some dr → dr.1 = |dr.2 - head| := by
  intro l
  induction l with
  | nil => intro acc dr hacc h; exact hacc dr h
  | cons x xs ih =>
    intro acc dr hacc h
    simp only [List.foldl_cons] at h
    refine ih _ dr ?_ h
    intro d0 hd0
    match acc, hd0 with
    | none, hd0 =>
        dsimp only at hd0
        cases hd0
        rfl
    | some d, hd0 =>
        dsimp only at hd0
        by_cases hlt : |x - head| < d.1
        · rw [if_pos hlt] at hd0
          cases hd0
          rfl
        · rw [if_neg hlt] at hd0
          cases hd0
          exact hacc _ rfl

theorem sstfPick_fst {head : ℤ} {l : List ℤ} {dr : ℤ × ℤ}
    (h : sstfPick head l = some dr) : dr.1 = |dr.2 - head| :=
  sstfPick_aux_fst head l none dr (fun _ hc => by cases hc) h

theorem good_sstfLoop (fuel : Nat) :
    ∀ (st : GenState) (remaining : List ℤ), goodState st → remaining.Nodup →
      (∀ x ∈ remaining, x ∉ st.served ∧ 0 ≤ x ∧ x ≤ DISK_MAX) →
      goodState (sstfLoop fuel st remaining) := by
  induction fuel with
  | zero => intro st remaining hg _ _; exact hg
  | succ n ih =>
    intro st remaining hg hnd hfresh
    rw [sstfLoop]
    cases hp : sstfPick st.head remaining with
    | none => exact hg
    | some dr =>
        have hmem : dr.2 ∈ remaining := sstfPick_mem hp
        have hfst : dr.1 = |dr.2 - st.head| := sstfPick_fst hp
        obtain ⟨hm1, hm2, hm3⟩ := hfresh dr.2 hmem
        have hgm : goodState { st with seek := st.seek + dr.1, head := dr.2 } :=
          good_move hg (by rw [hfst]; exact abs_nonneg _) hm2 hm3
        have hgm2 : goodState (markServed { st with seek := st.seek + dr.1, head := dr.2 } dr.2) :=
          good_markServed hgm hm1 hm2 hm3
        refine ih _ _ (good_pushStep hgm2) (hnd.erase _) ?_
        intro y hy
        obtain ⟨hyne, hymem⟩ := (List.Nodup.mem_erase_iff hnd).mp hy
        obtain ⟨hy1, hy2, hy3⟩ := hfresh y hymem
        refine ⟨?_, hy2, hy3⟩
        show y ∉ setAdd st.served dr.2
        rw [setAdd, if_neg hm1]
        intro hc
        rcases List.mem_append.mp hc with hc | hc
        · exact hy1 hc
        · exact hyne (List.mem_singleton.mp hc)

theorem good_fcfs_fold (origSet : List ℤ) (l : List ℤ) :
    ∀ st : GenState, goodState st → l.Nodup →
      (∀ x ∈ l, x ∉ st.served ∧ 0 ≤ x ∧ x ≤ DISK_MAX) →
      goodState (l.foldl (fun s req =>
        let s := goTo s req
        let s := if req ∈ origSet then markServed s req else s
        pushStep s) st) := by
  induction l with
  | nil => intro st hg _ _; exact hg
  | cons x xs ih =>
    intro st hg hnd hfresh
    obtain ⟨hx1, hx2, hx3⟩ := hfresh x (List.mem_cons_self _ _)
    rw [List.foldl_cons]
    dsimp only
    have hg1 : goodState (goTo st x) := good_goTo hg hx2 hx3
    by_cases hm : x ∈ origSet
    · rw [if_pos hm]
      have hg2 : goodState (markServed (goTo st x) x) :=
        good_markServed hg1 hx1 hx2 hx3
      refine ih _ (good_pushStep hg2) (List.nodup_cons.mp hnd).2 ?_
      intro y hy
      obtain ⟨hy1, hy2, hy3⟩ := hfresh y (List.mem_cons_of_mem _ hy)
      refine ⟨?_, hy2, hy3⟩
      show y ∉ setAdd st.served x
      rw [setAdd, if_neg hx1]
      intro hc
      rcases List.mem_append.mp hc with hc | hc
      · exact hy1 hc
      · exact (List.nodup_cons.mp hnd).1 (List.mem_singleton.mp hc ▸ hy)
    · rw [if_neg hm]
      refine ih _ (good_pushStep hg1) (List.nodup_cons.mp hnd).2 ?_
      intro y hy
      obtain ⟨hy1, hy2, hy3⟩ := hfresh y (List.mem_cons_of_mem _ hy)
      exact ⟨hy1, hy2, hy3⟩

theorem run_invariants_glue (alg : String) (reqs : List ℤ) (h : ℤ) (d : String) (st : GenState)
    (hrun : runAlgorithm alg reqs h d [initStep h] = st.history)
    (hg : goodState st) :
    List.Chain' stepRel (calculateSimulationHistory alg reqs h d) ∧
    ∀ s ∈ calculateSimulationHistory alg reqs h d, stepOk s := by
  unfold calculateSimulationHistory
  dsimp only
  rw [hrun]
  obtain ⟨_, _, _, _, hchain, hok⟩ := hg
  have hchain' : List.Chain' stepRel st.history := (List.chain'_append.mp hchain).1
  cases hl : st.history.getLast? with
  | none =>
      rw [List.getLast?_eq_none_iff.mp hl]
      exact ⟨List.chain'_nil, fun s hs => absurd hs (List.not_mem_nil s)⟩
  | some s =>
      have hsm : s ∈ st.history := List.mem_of_mem_getLast? (by rw [hl]; rfl)
      constructor
      · refine List.chain'_append.mpr ⟨hchain', List.chain'_singleton _, ?_⟩
        intro x hx y hy
        have hx' : x = s := by rw [hl] at hx; exact (Option.mem_some_iff.mp hx).symm
        have hy' : y = s := by
          have := hy
          simp only [List.head?_cons, Option.mem_some_iff] at this
          exact this.symm
        rw [hx', hy']
        exact stepRel_refl s
      · intro t ht
        rcases List.mem_append.mp ht with ht | ht
        · exact hok t ht
        · rcases List.mem_singleton.mp ht with rfl
          exact hok _ hsm

theorem DISK_MAX_nonneg : (0 : ℤ) ≤ DISK_MAX := by norm_num [DISK_MAX]

theorem good_start (h : ℤ) (hh0 : 0 ≤ h) (hhM : h ≤ DISK_MAX) :
    goodState ⟨h, 0, [], [], [initStep h]⟩ := by
  refine ⟨List.nodup_nil, rfl, hh0, hhM, ?_, ?_⟩
  · exact List.chain'_pair.mpr (stepRel_refl _)
  · intro s hs
    rcases List.mem_singleton.mp hs with rfl
    exact ⟨List.nodup_nil, rfl, hh0, hhM⟩

theorem good_phase0 (h : ℤ) (hh0 : 0 ≤ h) (hhM : h ≤ DISK_MAX)
    (c : Prop) [Decidable c] :
    goodState (if c then pushStep (markServed (⟨h, 0, [], [], [initStep h]⟩ : GenState) h)
      else (⟨h, 0, [], [], [initStep h]⟩ : GenState)) ∧
    ∀ x ∈ (if c then pushStep (markServed (⟨h, 0, [], [], [initStep h]⟩ : GenState) h)
      else (⟨h, 0, [], [], [initStep h]⟩ : GenState)).served, x = h := by
  by_cases hc : c
  · rw [if_pos hc]
    constructor
    · exact good_pushStep (good_markServed (good_start h hh0 hhM)
        (List.not_mem_nil h) hh0 hhM)
    · intro x hx
      have : x ∈ setAdd [] h := hx
      rw [setAdd, if_neg (List.not_mem_nil h)] at this
      simpa using this
  · rw [if_neg hc]
    exact ⟨good_start h hh0 hhM, fun x hx => absurd hx (List.not_mem_nil x)⟩

theorem condGoTo_good_served (st : GenState) (x : ℤ) (hg : goodState st)
    (hx0 : 0 ≤ x) (hxM : x ≤ DISK_MAX) :
    goodState (if st.head ≠ x then pushStep (goTo st x) else st) ∧
    (if st.head ≠ x then pushStep (goTo st x) else st).served = st.served := by
  by_cases hc : st.head ≠ x
  · rw [if_pos hc]
    exact ⟨good_pushStep (good_goTo hg hx0 hxM), rfl⟩
  · rw [if_neg hc]
    exact ⟨hg, rfl⟩

theorem dropLast_ne_getLast {l : List ℤ} (hnd : l.Nodup) {a : ℤ}
    (ha : l.getLast? = some a) : ∀ x ∈ l.dropLast, x ≠ a := by
  have hne : l ≠ [] := by intro hc; rw [hc] at ha; cases ha
  have hgl : l.getLast hne = a := by
    rw [List.getLast?_eq_getLast l hne] at ha
    exact Option.some.inj ha
  have hdecomp : l.dropLast ++ [a] = l := by
    rw [← hgl]
    exact List.dropLast_append_getLast hne
  rw [← hdecomp, List.nodup_append] at hnd
  intro x hx hxa
  exact hnd.2.2 hx (by rw [hxa]; exact List.mem_singleton.mpr rfl)

theorem good_run_scan (reqs : List ℤ) (h : ℤ) (d : String)
    (hrange : ∀ r ∈ reqs, 0 ≤ r ∧ r ≤ DISK_MAX)
    (hh0 : 0 ≤ h) (hhM : h ≤ DISK_MAX) :
    List.Chain' stepRel (calculateSimulationHistory "scan" reqs h d) ∧
    ∀ s ∈ calculateSimulationHistory "scan" reqs h d, stepOk s := by
  have hSb : ∀ x ∈ List.insertionSort (fun x1 x2 => x1 ≤ x2) (toSetList reqs),
      0 ≤ x ∧ x ≤ DISK_MAX := fun x hx => hrange x (mem_sortedReqs.mp hx)
  have hSnd := sortedReqs_nodup reqs
  set S := List.insertionSort (fun x1 x2 => x1 ≤ x2) (toSetList reqs) with hSdef
  set L := S.filter (fun r => decide (r < h)) with hLdef
  set R := S.filter (fun r => decide (h ≤ r)) with hRdef
  have hLmem : ∀ x ∈ L, x < h ∧ 0 ≤ x ∧ x ≤ DISK_MAX := by
    intro x hx
    obtain ⟨hxS, hxd⟩ := List.mem_filter.mp hx
    exact ⟨by simpa using hxd, (hSb x hxS).1, (hSb x hxS).2⟩
  have hRmem : ∀ x ∈ R, h ≤ x ∧ 0 ≤ x ∧ x ≤ DISK_MAX := by
    intro x hx
    obtain ⟨hxS, hxd⟩ := List.mem_filter.mp hx
    exact ⟨by simpa using hxd, (hSb x hxS).1, (hSb x hxS).2⟩
  have hLnd : L.Nodup := hSnd.filter _
  have hRnd : R.Nodup := hSnd.filter _
  set st0 : GenState := ⟨h, 0, [], [], [initStep h]⟩ with hst0
  set st1 := if h ∈ S then pushStep (markServed st0 h) else st0 with hst1
  obtain ⟨hg1, hsv1⟩ := good_phase0 h hh0 hhM (h ∈ S)
  have hg1' : goodState st1 := hg1
  have hsv1' : ∀ x ∈ st1.served, x = h := hsv1
  by_cases hd : d = "right"
  · obtain ⟨hg2, hsv2⟩ := good_serveFoldSkip h R st1 hg1' hRnd (by
      intro x hx hxh
      obtain ⟨hx1, hx2, hx3⟩ := hRmem x hx
      exact ⟨fun hc => hxh (hsv1' x hc), hx2, hx3⟩)
    set st2 := serveFoldSkip h st1 R with hst2
    obtain ⟨hg3, hsv3⟩ := condGoTo_good_served st2 DISK_MAX hg2 DISK_MAX_nonneg (le_refl _)
    set st3 := if st2.head ≠ DISK_MAX then pushStep (goTo st2 DISK_MAX) else st2 with hst3
    obtain ⟨hg4, _⟩ := good_serveFold L.reverse st3 hg3 (List.nodup_reverse.mpr hLnd) (by
      intro x hx
      have hxL : x ∈ L := List.mem_reverse.mp hx
      obtain ⟨hx1, hx2, hx3⟩ := hLmem x hxL
      refine ⟨?_, hx2, hx3⟩
      rw [hsv3, hsv2]
      intro hc
      rcases List.mem_append.mp hc with hc | hc
      · exact absurd (hsv1' x hc) (by omega)
      · exact absurd (hRmem x (List.mem_filter.mp hc).1).1 (by omega))
    set st4 := serveFold st3 L.reverse with hst4
    refine run_invariants_glue "scan" reqs h d st4 ?_ hg4
    rw [hd]
    show calculateScanPath reqs h "right" [initStep h] = st4.history
    unfold calculateScanPath
    dsimp only
    rw [← hSdef, ← hLdef, ← hRdef, ← hst0, ← hst1, if_pos rfl, ← hst2, ← hst3]
  · obtain ⟨hg2, hsv2⟩ := good_serveFold L.reverse st1 hg1' (List.nodup_reverse.mpr hLnd) (by
      intro x hx
      have hxL : x ∈ L := List.mem_reverse.mp hx
      obtain ⟨hx1, hx2, hx3⟩ := hLmem x hxL
      exact ⟨fun hc => absurd (hsv1' x hc) (by omega), hx2, hx3⟩)
    set st2 := serveFold st1 L.reverse with hst2
    obtain ⟨hg3, hsv3⟩ := condGoTo_good_served st2 0 hg2 (le_refl _) DISK_MAX_nonneg
    set st3 := if st2.head ≠ 0 then pushStep (goTo st2 0) else st2 with hst3
    obtain ⟨hg4, _⟩ := good_serveFoldSkip h R st3 hg3 hRnd (by
      intro x hx hxh
      obtain ⟨hx1, hx2, hx3⟩ := hRmem x hx
      refine ⟨?_, hx2, hx3⟩
      rw [hsv3, hsv2]
      intro hc
      rcases List.mem_append.mp hc with hc | hc
      · exact hxh (hsv1' x hc)
      · exact absurd (hLmem x (List.mem_reverse.mp hc)).1 (by omega))
    set st4 := serveFoldSkip h st3 R with hst4
    refine run_invariants_glue "scan" reqs h d st4 ?_ hg4
    show calculateScanPath reqs h d [initStep h] = st4.history
    unfold calculateScanPath
    dsimp only
    rw [← hSdef, ← hLdef, ← hRdef, ← hst0, ← hst1, if_neg hd, ← hst2, ← hst3]

theorem good_run_look (reqs : List ℤ) (h : ℤ) (d : String)
    (hrange : ∀ r ∈ reqs, 0 ≤ r ∧ r ≤ DISK_MAX)
    (hh0 : 0 ≤ h) (hhM : h ≤ DISK_MAX) :
    List.Chain' stepRel (calculateSimulationHistory "look" reqs h d) ∧
    ∀ s ∈ calculateSimulationHistory "look" reqs h d, stepOk s := by
  have hSb : ∀ x ∈ List.insertionSort (fun x1 x2 => x1 ≤ x2) (toSetList reqs),
      0 ≤ x ∧ x ≤ DISK_MAX := fun x hx => hrange x (mem_sortedReqs.mp hx)
  have hSnd := sortedReqs_nodup reqs
  set S := List.insertionSort (fun x1 x2 => x1 ≤ x2) (toSetList reqs) with hSdef
  set L := S.filter (fun r => decide (r < h)) with hLdef
  set R := S.filter (fun r => decide (h ≤ r)) with hRdef
  have hLmem : ∀ x ∈ L, x < h ∧ 0 ≤ x ∧ x ≤ DISK_MAX := by
    intro x hx
    obtain ⟨hxS, hxd⟩ := List.mem_filter.mp hx
    exact ⟨by simpa using hxd, (hSb x hxS).1, (hSb x hxS).2⟩
  have hRmem : ∀ x ∈ R, h ≤ x ∧ 0 ≤ x ∧ x ≤ DISK_MAX := by
    intro x hx
    obtain ⟨hxS, hxd⟩ := List.mem_filter.mp hx
    exact ⟨by simpa using hxd, (hSb x hxS).1, (hSb x hxS).2⟩
  have hLnd : L.Nodup := hSnd.filter _
  have hRnd : R.Nodup := hSnd.filter _
  set st0 : GenState := ⟨h, 0, [], [], [initStep h]⟩ with hst0
  set st1 := if h ∈ S then pushStep (markServed st0 h) else st0 with hst1
  obtain ⟨hg1, hsv1⟩ := good_phase0 h hh0 hhM (h ∈ S)
  have hg1' : goodState st1 := hg1
  have hsv1' : ∀ x ∈ st1.served, x = h := hsv1
  by_cases hd : d = "right"
  · obtain ⟨hg2, hsv2⟩ := good_serveFoldSkip h R st1 hg1' hRnd (by
      intro x hx hxh
      obtain ⟨hx1, hx2, hx3⟩ := hRmem x hx
      exact ⟨fun hc => hxh (hsv1' x hc), hx2, hx3⟩)
    set st2 := serveFoldSkip h st1 R with hst2
    obtain ⟨hg3, _⟩ := good_serveFold L.reverse st2 hg2 (List.nodup_reverse.mpr hLnd) (by
      intro x hx
      have hxL : x ∈ L := List.mem_reverse.mp hx
      obtain ⟨hx1, hx2, hx3⟩ := hLmem x hxL
      refine ⟨?_, hx2, hx3⟩
      rw [hsv2]
      intro hc
      rcases List.mem_append.mp hc with hc | hc
      · exact absurd (hsv1' x hc) (by omega)
      · exact absurd (hRmem x (List.mem_filter.mp hc).1).1 (by omega))
    set st3 := serveFold st2 L.reverse with hst3
    refine run_invariants_glue "look" reqs h d st3 ?_ hg3
    rw [hd]
    show calculateLookPath reqs h "right" [initStep h] = st3.history
    unfold calculateLookPath
    dsimp only
    rw [← hSdef, ← hLdef, ← hRdef, ← hst0, ← hst1, if_pos rfl, ← hst2]
  · obtain ⟨hg2, hsv2⟩ := good_serveFold L.reverse st1 hg1' (List.nodup_reverse.mpr hLnd) (by
      intro x hx
      have hxL : x ∈ L := List.mem_reverse.mp hx
      obtain ⟨hx1, hx2, hx3⟩ := hLmem x hxL
      exact ⟨fun hc => absurd (hsv1' x hc) (by omega), hx2, hx3⟩)
    set st2 := serveFold st1 L.reverse with hst2
    obtain ⟨hg3, _⟩ := good_serveFoldSkip h R st2 hg2 hRnd (by
      intro x hx hxh
      obtain ⟨hx1, hx2, hx3⟩ := hRmem x hx
      refine ⟨?_, hx2, hx3⟩
      rw [hsv2]
      intro hc
      rcases List.mem_append.mp hc with hc | hc
      · exact hxh (hsv1' x hc)
      · exact absurd (hLmem x (List.mem_reverse.mp hc)).1 (by omega))
    set st3 := serveFoldSkip h st2 R with hst3
    refine run_invariants_glue "look" reqs h d st3 ?_ hg3
    show calculateLookPath reqs h d [initStep h] = st3.history
    unfold calculateLookPath
    dsimp only
    rw [← hSdef, ← hLdef, ← hRdef, ← hst0, ← hst1, if_neg hd, ← hst2]

theorem good_run_cscan (reqs : List ℤ) (h : ℤ) (d : String)
    (hrange : ∀ r ∈ reqs, 0 ≤ r ∧ r ≤ DISK_MAX)
    (hh0 : 0 ≤ h) (hhM : h ≤ DISK_MAX) :
    List.Chain' stepRel (calculateSimulationHistory "c-scan" reqs h d) ∧
    ∀ s ∈ calculateSimulationHistory "c-scan" reqs h d, stepOk s := by
  have hSb : ∀ x ∈ List.insertionSort (fun x1 x2 => x1 ≤ x2) (toSetList reqs),
      0 ≤ x ∧ x ≤ DISK_MAX := fun x hx => hrange x (mem_sortedReqs.mp hx)
  have hSnd := sortedReqs_nodup reqs
  set S := List.insertionSort (fun x1 x2 => x1 ≤ x2) (toSetList reqs) with hSdef
  set L := S.filter (fun r => decide (r < h)) with hLdef
  set R := S.filter (fun r => decide (h ≤ r)) with hRdef
  have hLmem : ∀ x ∈ L, x < h ∧ 0 ≤ x ∧ x ≤ DISK_MAX := by
    intro x hx
    obtain ⟨hxS, hxd⟩ := List.mem_filter.mp hx
    exact ⟨by simpa using hxd, (hSb x hxS).1, (hSb x hxS).2⟩
  have hRmem : ∀ x ∈ R, h ≤ x ∧ 0 ≤ x ∧ x ≤ DISK_MAX := by
    intro x hx
    obtain ⟨hxS, hxd⟩ := List.mem_filter.mp hx
    exact ⟨by simpa using hxd, (hSb x hxS).1, (hSb x hxS).2⟩
  have hLnd : L.Nodup := hSnd.filter _
  have hRnd : R.Nodup := hSnd.filter _
  set st0 : GenState := ⟨h, 0, [], [], [initStep h]⟩ with hst0
  set st1 := if h ∈ S then pushStep (markServed st0 h) else st0 with hst1
  obtain ⟨hg1, hsv1⟩ := good_phase0 h hh0 hhM (h ∈ S)
  have hg1' : goodState st1 := hg1
  have hsv1' : ∀ x ∈ st1.served, x = h := hsv1
  by_cases hd : d = "right"
  · obtain ⟨hg2, hsv2⟩ := good_serveFoldSkip h R st1 hg1' hRnd (by
      intro x hx hxh
      obtain ⟨hx1, hx2, hx3⟩ := hRmem x hx
      exact ⟨fun hc => hxh (hsv1' x hc), hx2, hx3⟩)
    set st2 := serveFoldSkip h st1 R with hst2
    obtain ⟨hg3, hsv3⟩ := condGoTo_good_served st2 DISK_MAX hg2 DISK_MAX_nonneg (le_refl _)
    set st3 := if st2.head ≠ DISK_MAX then pushStep (goTo st2 DISK_MAX) else st2 with hst3
    have hg4 : goodState (pushStep { st3 with seek := st3.seek + DISK_MAX, head := 0 }) :=
      good_pushStep (good_move hg3 DISK_MAX_nonneg (le_refl _) DISK_MAX_nonneg)
    set st4 := pushStep { st3 with seek := st3.seek + DISK_MAX, head := 0 } with hst4
    have hsv4 : st4.served = st2.served := by rw [hst4]; exact hsv3
    obtain ⟨hg5, _⟩ := good_serveFold L st4 hg4 hLnd (by
      intro x hx
      obtain ⟨hx1, hx2, hx3⟩ := hLmem x hx
      refine ⟨?_, hx2, hx3⟩
      rw [hsv4, hsv2]
      intro hc
      rcases List.mem_append.mp hc with hc | hc
      · exact absurd (hsv1' x hc) (by omega)
      · exact absurd (hRmem x (List.mem_filter.mp hc).1).1 (by omega))
    set st5 := serveFold st4 L with hst5
    refine run_invariants_glue "c-scan" reqs h d st5 ?_ hg5
    rw [hd]
    show calculateCScanPath reqs h "right" [initStep h] = st5.history
    unfold calculateCScanPath
    dsimp only
    rw [← hSdef, ← hLdef, ← hRdef, ← hst0, ← hst1, if_pos rfl, ← hst2, ← hst3, ← hst4]
  · obtain ⟨hg2, hsv2⟩ := good_serveFold L.reverse st1 hg1' (List.nodup_reverse.mpr hLnd) (by
      intro x hx
      have hxL : x ∈ L := List.mem_reverse.mp hx
      obtain ⟨hx1, hx2, hx3⟩ := hLmem x hxL
      exact ⟨fun hc => absurd (hsv1' x hc) (by omega), hx2, hx3⟩)
    set st2 := serveFold st1 L.reverse with hst2
    obtain ⟨hg3, hsv3⟩ := condGoTo_good_served st2 0 hg2 (le_refl _) DISK_MAX_nonneg
    set st3 := if st2.head ≠ 0 then pushStep (goTo st2 0) else st2 with hst3
    have hg4 : goodState (pushStep { st3 with seek := st3.seek + DISK_MAX, head := DISK_MAX }) :=
      good_pushStep (good_move hg3 DISK_MAX_nonneg DISK_MAX_nonneg (le_refl _))
    set st4 := pushStep { st3 with seek := st3.seek + DISK_MAX, head := DISK_MAX } with hst4
    have hsv4 : st4.served = st2.served := by rw [hst4]; exact hsv3
    obtain ⟨hg5, _⟩ := good_serveFoldSkip h R.reverse st4 hg4 (List.nodup_reverse.mpr hRnd) (by
      intro x hx hxh
      have hxR : x ∈ R := List.mem_reverse.mp hx
      obtain ⟨hx1, hx2, hx3⟩ := hRmem x hxR
      refine ⟨?_, hx2, hx3⟩
      rw [hsv4, hsv2]
      intro hc
      rcases List.mem_append.mp hc with hc | hc
      · exact hxh (hsv1' x hc)
      · exact absurd (hLmem x (List.mem_reverse.mp hc)).1 (by omega))
    set st5 := serveFoldSkip h st4 R.reverse with hst5
    refine run_invariants_glue "c-scan" reqs h d st5 ?_ hg5
    show calculateCScanPath reqs h d [initStep h] = st5.history
    unfold calculateCScanPath
    dsimp only
    rw [← hSdef, ← hLdef, ← hRdef, ← hst0, ← hst1, if_neg hd, ← hst2, ← hst3, ← hst4]

theorem good_run_clook (reqs : List ℤ) (h : ℤ) (d : String)
    (hrange : ∀ r ∈ reqs, 0 ≤ r ∧ r ≤ DISK_MAX)
    (hh0 : 0 ≤ h) (hhM : h ≤ DISK_MAX) :
    List.Chain' stepRel (calculateSimulationHistory "c-look" reqs h d) ∧
    ∀ s ∈ calculateSimulationHistory "c-look" reqs h d, stepOk s := by
  have hSb : ∀ x ∈ List.insertionSort (fun x1 x2 => x1 ≤ x2) (toSetList reqs),
      0 ≤ x ∧ x ≤ DISK_MAX := fun x hx => hrange x (mem_sortedReqs.mp hx)
  have hSnd := sortedReqs_nodup reqs
  set S := List.insertionSort (fun x1 x2 => x1 ≤ x2) (toSetList reqs) with hSdef
  set L := S.filter (fun r => decide (r < h)) with hLdef
  set R := S.filter (fun r => decide (h ≤ r)) with hRdef
  have hLmem : ∀ x ∈ L, x < h ∧ 0 ≤ x ∧ x ≤ DISK_MAX := by
    intro x hx
    obtain ⟨hxS, hxd⟩ := List.mem_filter.mp hx
    exact ⟨by simpa using hxd, (hSb x hxS).1, (hSb x hxS).2⟩
  have hRmem : ∀ x ∈ R, h ≤ x ∧ 0 ≤ x ∧ x ≤ DISK_MAX := by
    intro x hx
    obtain ⟨hxS, hxd⟩ := List.mem_filter.mp hx
    exact ⟨by simpa using hxd, (hSb x hxS).1, (hSb x hxS).2⟩
  have hLnd : L.Nodup := hSnd.filter _
  have hRnd : R.Nodup := hSnd.filter _
  set st0 : GenState := ⟨h, 0, [], [], [initStep h]⟩ with hst0
  set st1 := if h ∈ S then pushStep (markServed st0 h) else st0 with hst1
  obtain ⟨hg1, hsv1⟩ := good_phase0 h hh0 hhM (h ∈ S)
  have hg1' : goodState st1 := hg1
  have hsv1' : ∀ x ∈ st1.served, x = h := hsv1
  by_cases hd : d = "right"
  · obtain ⟨hg2, hsv2⟩ := good_serveFoldSkip h R st1 hg1' hRnd (by
      intro x hx hxh
      obtain ⟨hx1, hx2, hx3⟩ := hRmem x hx
      exact ⟨fun hc => hxh (hsv1' x hc), hx2, hx3⟩)
    set st2 := serveFoldSkip h st1 R with hst2
    cases hL : L with
    | nil =>
        refine run_invariants_glue "c-look" reqs h d st2 ?_ hg2
        rw [hd]
        show calculateCLookPath reqs h "right" [initStep h] = st2.history
        unfold calculateCLookPath
        dsimp only
        rw [← hSdef, ← hLdef, ← hRdef, ← hst0, ← hst1, if_pos rfl, ← hst2, hL]
    | cons f rest =>
        have hfL : f ∈ L := by rw [hL]; exact List.mem_cons_self _ _
        obtain ⟨hf1, hf2, hf3⟩ := hLmem f hfL
        have hfresh_f : f ∉ st2.served := by
          rw [hsv2]
          intro hc
          rcases List.mem_append.mp hc with hc | hc
          · exact absurd (hsv1' f hc) (by omega)
          · exact absurd (hRmem f (List.mem_filter.mp hc).1).1 (by omega)
        have hg3 : goodState (serveStep st2 f) := good_serveStep hg2 hfresh_f hf2 hf3
        have hsv3 : (serveStep st2 f).served = st2.served ++ [f] :=
          serveStep_served st2 f hfresh_f
        set st3 := serveStep st2 f with hst3
        have hLnd' : (f :: rest).Nodup := by rw [← hL]; exact hLnd
        obtain ⟨hg4, _⟩ := good_serveFold rest st3 hg3 (List.nodup_cons.mp hLnd').2 (by
          intro y hy
          have hyL : y ∈ L := by rw [hL]; exact List.mem_cons_of_mem _ hy
          obtain ⟨hy1, hy2, hy3⟩ := hLmem y hyL
          refine ⟨?_, hy2, hy3⟩
          rw [hst3, hsv3, hsv2]
          intro hc
          rcases List.mem_append.mp hc with hc | hc
          · rcases List.mem_append.mp hc with hc | hc
            · exact absurd (hsv1' y hc) (by omega)
            · exact absurd (hRmem y (List.mem_filter.mp hc).1).1 (by omega)
          · exact (List.nodup_cons.mp hLnd').1 (List.mem_singleton.mp hc ▸ hy)
        )
        set st4 := serveFold st3 rest with hst4
        refine run_invariants_glue "c-look" reqs h d st4 ?_ hg4
        rw [hd]
        show calculateCLookPath reqs h "right" [initStep h] = st4.history
        unfold calculateCLookPath
        dsimp only
        rw [← hSdef, ← hLdef, ← hRdef, ← hst0, ← hst1, if_pos rfl, ← hst2, hL]
  · obtain ⟨hg2, hsv2⟩ := good_serveFold L.reverse st1 hg1' (List.nodup_reverse.mpr hLnd) (by
      intro x hx
      have hxL : x ∈ L := List.mem_reverse.mp hx
      obtain ⟨hx1, hx2, hx3⟩ := hLmem x hxL
      exact ⟨fun hc => absurd (hsv1' x hc) (by omega), hx2, hx3⟩)
    set st2 := serveFold st1 L.reverse with hst2
    cases hRl : R.getLast? with
    | none =>
        refine run_invariants_glue "c-look" reqs h d st2 ?_ hg2
        show calculateCLookPath reqs h d [initStep h] = st2.history
        unfold calculateCLookPath
        dsimp only
        rw [← hSdef, ← hLdef, ← hRdef, ← hst0, ← hst1, if_neg hd, ← hst2, hRl]
    | some lastReq =>
        have hlR : lastReq ∈ R := mem_of_getLast?_eq hRl
        obtain ⟨hl1, hl2, hl3⟩ := hRmem lastReq hlR
        have hg3 : goodState (goTo st2 lastReq) := good_goTo hg2 hl2 hl3
        set st3 := goTo st2 lastReq with hst3
        have hsv3 : st3.served = st2.served := rfl
        have hfresh_last : lastReq ≠ h → lastReq ∉ st3.served := by
          intro hne hc
          rw [hsv3, hsv2] at hc
          rcases List.mem_append.mp hc with hc | hc
          · exact hne (hsv1' lastReq hc)
          · exact absurd (hLmem lastReq (List.mem_reverse.mp hc)).1 (by omega)
        have hhead3 : st3.head = lastReq := rfl
        have hstage4 : goodState (if st3.head ≠ h then pushStep (markServed st3 lastReq) else st3)
            ∧ (if st3.head ≠ h then pushStep (markServed st3 lastReq) else st3).served
              ⊆ st2.served ++ [lastReq] := by
          by_cases hc : st3.head ≠ h
          · rw [if_pos hc]
            have hne : lastReq ≠ h := by rw [← hhead3]; exact hc
            have hfr := hfresh_last hne
            refine ⟨good_pushStep (good_markServed hg3 hfr hl2 hl3), ?_⟩
            show setAdd st3.served lastReq ⊆ st2.served ++ [lastReq]
            rw [setAdd, if_neg hfr, hsv3]
            exact fun x hx => hx
          · rw [if_neg hc]
            refine ⟨hg3, ?_⟩
            rw [hsv3]
            exact fun x hx => List.mem_append.mpr (Or.inl hx)
        set st4 := if st3.head ≠ h then pushStep (markServed st3 lastReq) else st3 with hst4
        obtain ⟨hg4, hsv4⟩ := hstage4
        obtain ⟨hg5, _⟩ := good_serveFoldSkip h R.dropLast.reverse st4 hg4
          (List.nodup_reverse.mpr (hRnd.sublist (List.dropLast_sublist R))) (by
          intro y hy hyh
          have hyd : y ∈ R.dropLast := List.mem_reverse.mp hy
          have hyR : y ∈ R := (List.dropLast_sublist R).subset hyd
          obtain ⟨hy1, hy2, hy3⟩ := hRmem y hyR
          refine ⟨?_, hy2, hy3⟩
          intro hc
          rcases List.mem_append.mp (hsv4 hc) with hc2 | hc2
          · rw [hsv2] at hc2
            rcases List.mem_append.mp hc2 with hc2 | hc2
            · exact hyh (hsv1' y hc2)
            · exact absurd (hLmem y (List.mem_reverse.mp hc2)).1 (by omega)
          · exact dropLast_ne_getLast hRnd hRl y hyd (List.mem_singleton.mp hc2))
        set st5 := serveFoldSkip h st4 R.dropLast.reverse with hst5
        refine run_invariants_glue "c-look" reqs h d st5 ?_ hg5
        show calculateCLookPath reqs h d [initStep h] = st5.history
        unfold calculateCLookPath
        dsimp only
        rw [← hSdef, ← hLdef, ← hRdef, ← hst0, ← hst1, if_neg hd, ← hst2, hRl]

theorem good_run_fcfs (reqs : List ℤ) (h : ℤ) (d : String) (hnd : reqs.Nodup)
    (hrange : ∀ r ∈ reqs, 0 ≤ r ∧ r ≤ DISK_MAX)
    (hh0 : 0 ≤ h) (hhM : h ≤ DISK_MAX) :
    List.Chain' stepRel (calculateSimulationHistory "fcfs" reqs h d) ∧
    ∀ s ∈ calculateSimulationHistory "fcfs" reqs h d, stepOk s := by
  set st0 : GenState := ⟨h, 0, [], [], [initStep h]⟩ with hst0
  have hg0 : goodState st0 := good_start h hh0 hhM
  have hg := good_fcfs_fold (toSetList reqs) reqs st0 hg0 hnd (by
    intro x hx
    refine ⟨?_, (hrange x hx).1, (hrange x hx).2⟩
    rw [hst0]
    exact List.not_mem_nil x)
  refine run_invariants_glue "fcfs" reqs h d _ rfl hg

theorem good_run_sstf (reqs : List ℤ) (h : ℤ) (d : String)
    (hrange : ∀ r ∈ reqs, 0 ≤ r ∧ r ≤ DISK_MAX)
    (hh0 : 0 ≤ h) (hhM : h ≤ DISK_MAX) :
    List.Chain' stepRel (calculateSimulationHistory "sstf" reqs h d) ∧
    ∀ s ∈ calculateSimulationHistory "sstf" reqs h d, stepOk s := by
  set st0 : GenState := ⟨h, 0, [], [], [initStep h]⟩ with hst0
  have hg0 : goodState st0 := good_start h hh0 hhM
  have hrng : ∀ x ∈ toSetList reqs, 0 ≤ x ∧ x ≤ DISK_MAX :=
    fun x hx => hrange x (mem_toSetList.mp hx)
  by_cases hm : h ∈ toSetList reqs
  · have hg1 : goodState (pushStep (markServed st0 h)) := by
      refine good_pushStep (good_markServed hg0 ?_ hh0 hhM)
      rw [hst0]
      exact List.not_mem_nil h
    have hsv1 : (pushStep (markServed st0 h)).served = [h] := by
      show setAdd st0.served h = [h]
      rw [hst0]
      rfl
    have hg := good_sstfLoop ((toSetList reqs).erase h).length
      (pushStep (markServed st0 h)) ((toSetList reqs).erase h) hg1
      ((toSetList_nodup reqs).erase _) (by
        intro y hy
        obtain ⟨hyne, hymem⟩ := (List.Nodup.mem_erase_iff (toSetList_nodup reqs)).mp hy
        refine ⟨?_, (hrng y hymem).1, (hrng y hymem).2⟩
        rw [hsv1]
        intro hc
        exact hyne (List.mem_singleton.mp hc))
    refine run_invariants_glue "sstf" reqs h d _ ?_ hg
    show calculateSstfPath reqs h [initStep h] = _
    unfold calculateSstfPath
    dsimp only
    rw [← hst0, if_pos hm]
  · have hg := good_sstfLoop (toSetList reqs).length st0 (toSetList reqs) hg0
      (toSetList_nodup reqs) (by
        intro y hy
        refine ⟨?_, (hrng y hy).1, (hrng y hy).2⟩
        rw [hst0]
        exact List.not_mem_nil y)
    refine run_invariants_glue "sstf" reqs h d _ ?_ hg
    show calculateSstfPath reqs h [initStep h] = _
    unfold calculateSstfPath
    dsimp only
    rw [← hst0, if_neg hm]

/-! ## Claim theorems -/

/-- C1 (counterexample): the History Generator and the Stats Calculator
disagree on `c-scan`, requests `[0]`, startHead `0`, direction `left` —
all inside the claimed input domain.  The run's final cumulative seek is
199, while `getAlgorithmStats` returns 398. -/
theorem C1_counterexample :
    totalSeekOf (calculateSimulationHistory "c-scan" [0] 0 "left") ≠
      getAlgorithmStats "c-scan" [0] 0 "left" := by decide

/-- C2 (evaluation at the failing input): for FCFS with requests
`[5, 1, 5]` and startHead `0`, the seek cost is charged for every visit
(5 + 4 + 4 = 13), but the repeated value 5 is pushed into `servedOrder`
twice — the `originalRequestSet.has(req)` guard never fails, so the
claimed "each distinct value only once" does not hold. -/
theorem C2_eval :
    (calculateSimulationHistory "fcfs" [5,1,5] 0 "left").getLast?.map
      (fun s => (s.seek, s.servedOrder)) = some (13, [5, 1, 5]) := by decide

/-- C3 (counterexample): on the well-formed (but duplicate-carrying)
input `[5, 1, 5]`, the FCFS run contains a Step whose `servedOrder` has a
duplicate entry, refuting the no-duplicates invariant as claimed. -/
theorem C3_counterexample :
    ¬ (∀ s ∈ calculateSimulationHistory "fcfs" [5,1,5] 0 "left",
        s.servedOrder.Nodup) := by decide

/-- C5 (counterexample): for the scan scenario of the spec (requests
`[14,37,65,67,98,122,124,183]`, startHead 53, direction left) the total
seek is not 382 — neither the final cumulative seek of the run nor the
stats value. -/
theorem C5_counterexample :
    totalSeekOf (calculateSimulationHistory "scan" [14,37,65,67,98,122,124,183] 53 "left") ≠ 382 ∧
    getAlgorithmStats "scan" [14,37,65,67,98,122,124,183] 53 "left" ≠ 382 := by decide

/-- C5 (amended): the head path of the scan scenario is
`53→37→14→0→65→67→98→122→124→183` as claimed, but the total seek (final
cumulative seek and stats value alike) is 236, the sum of the pairwise
differences. -/
theorem C5_scan_example :
    ((calculateSimulationHistory "scan" [14,37,65,67,98,122,124,183] 53 "left").dropLast).map Step.head
      = [53, 37, 14, 0, 65, 67, 98, 122, 124, 183] ∧
    totalSeekOf (calculateSimulationHistory "scan" [14,37,65,67,98,122,124,183] 53 "left") = 236 ∧
    getAlgorithmStats "scan" [14,37,65,67,98,122,124,183] 53 "left" = 236 := by decide

/-- C6 (counterexample): the SSTF scenario's total seek is not 319 —
neither in the generated run nor in the stats value. -/
theorem C6_counterexample :
    totalSeekOf (calculateSimulationHistory "sstf" [98,183,37,122,14,124,65,67] 53 "left") ≠ 319 ∧
    getAlgorithmStats "sstf" [98,183,37,122,14,124,65,67] 53 "left" ≠ 319 := by decide

/-- C6 (amended): SSTF on requests `[98,183,37,122,14,124,65,67]` from
startHead 53 serves `65,67,37,14,98,122,124,183` in that order as
claimed, with a total seek of 236 (12+2+30+23+84+24+2+59). -/
theorem C6_sstf_example :
    (calculateSimulationHistory "sstf" [98,183,37,122,14,124,65,67] 53 "left").getLast?.map
      (fun s => (s.seek, s.servedOrder)) = some (236, [65, 67, 37, 14, 98, 122, 124, 183]) ∧
    getAlgorithmStats "sstf" [98,183,37,122,14,124,65,67] 53 "left" = 236 := by decide

/-- C7 (counterexample): the FCFS run's cumulative seek values after the
successive steps are not `45,128,146,111,76,111,67,2`. -/
theorem C7_counterexample :
    ((calculateSimulationHistory "fcfs" [98,183,37,122,14,124,65,67] 53 "left").dropLast).tail.map Step.seek
      ≠ [45, 128, 146, 111, 76, 111, 67, 2] := by decide

/-- C7 (amended): the FCFS run's cumulative seek values after the
successive steps are `45,130,276,361,469,579,638,640` (per-step costs
45,85,146,85,108,110,59,2), ending — as the claim says — at
totalSeek 640, which `getAlgorithmStats` matches. -/
theorem C7_fcfs_example :
    ((calculateSimulationHistory "fcfs" [98,183,37,122,14,124,65,67] 53 "left").dropLast).tail.map Step.seek
      = [45, 130, 276, 361, 469, 579, 638, 640] ∧
    totalSeekOf (calculateSimulationHistory "fcfs" [98,183,37,122,14,124,65,67] 53 "left") = 640 ∧
    getAlgorithmStats "fcfs" [98,183,37,122,14,124,65,67] 53 "left" = 640 := by decide

/-- C9 (counterexample): on an unknown algorithm token the engine does
not fail fast: `calculateSimulationHistory` returns exactly the
degenerate two-step run and `getAlgorithmStats` returns a total of 0 —
precisely the "normal results" the claim says are not produced. -/
theorem C9_counterexample :
    calculateSimulationHistory "elevator" [10] 5 "left" = [initStep 5, initStep 5] ∧
    getAlgorithmStats "elevator" [10] 5 "left" = 0 := by decide

/-- C9 (amended): the engine performs no validation and never rejects:
for every algorithm token outside the six known ones it silently returns
the degenerate two-step run `[start, start]` and a stats total of 0. -/
theorem C9_no_validation (alg : String) (requests : List ℤ) (startHead : ℤ)
    (direction : String) (h1 : alg ≠ "fcfs") (h2 : alg ≠ "sstf") (h3 : alg ≠ "scan")
    (h4 : alg ≠ "c-scan") (h5 : alg ≠ "look") (h6 : alg ≠ "c-look") :
    calculateSimulationHistory alg requests startHead direction
      = [initStep startHead, initStep startHead] ∧
    getAlgorithmStats alg requests startHead direction = 0 := by
  constructor
  · simp [calculateSimulationHistory, runAlgorithm, h1, h2, h3, h4, h5, h6]
  · simp [getAlgorithmStats, h1, h2, h3, h4, h5, h6]

/-- Witness for C9: the unknown token "elevator" concretely yields the
degenerate run and a zero total. -/
theorem C9_no_validation_witness :
    calculateSimulationHistory "elevator" [10] 5 "left" = [initStep 5, initStep 5] ∧
    getAlgorithmStats "elevator" [10] 5 "left" = 0 :=
  C9_no_validation "elevator" [10] 5 "left"
    (by decide) (by decide) (by decide) (by decide) (by decide) (by decide)

/-- C4: for every algorithm token and every input, the run begins with a
Step at `startHead` with zero cumulative seek and empty served state, has
at least two Steps, and its final Step is identical to the Step before it
(the appended sentinel duplicates the last real Step, so it carries no
additional seek cost). -/
theorem C4_run_shape (alg : String) (requests : List ℤ) (startHead : ℤ)
    (direction : String) :
    (calculateSimulationHistory alg requests startHead direction).head?
      = some (initStep startHead) ∧
    2 ≤ (calculateSimulationHistory alg requests startHead direction).length ∧
    (calculateSimulationHistory alg requests startHead direction).getLast?
      = ((calculateSimulationHistory alg requests startHead direction).dropLast).getLast? := by
  obtain ⟨u, hu⟩ := calculateSimulationHistory_shape alg requests startHead direction
  rw [hu]
  refine ⟨by simp, by simp, ?_⟩
  rw [List.dropLast_concat, List.getLast?_concat]
  exact (List.getLast?_eq_getLast _ _).symm

/-- C10: the SSTF selection loop (shared, textually identical, between the
History Generator and the Stats Calculator, and embedded here once as
`sstfPick`) is fully deterministic: on a non-empty remaining list it
returns the request at minimal distance from the current head, and among
equidistant requests the one encountered first in the remaining list's
(insertion) order — every element before the winner is strictly farther,
because only a strictly smaller distance replaces the current candidate. -/
theorem C10_sstf_tiebreak (head : ℤ) (l : List ℤ) (hne : l ≠ []) :
    ∃ r l₁ l₂, sstfPick head l = some (|r - head|, r) ∧ l = l₁ ++ r :: l₂ ∧
      (∀ x ∈ l, |r - head| ≤ |x - head|) ∧ (∀ x ∈ l₁, |r - head| < |x - head|) :=
  sstfPick_char head l hne

/-- Witness for C10: from head 3 over remaining `[5, 1, 2]` the pick is
concrete (distances 2, 2, 1: the strictly smaller final distance wins). -/
theorem C10_sstf_tiebreak_witness :
    ∃ r l₁ l₂, sstfPick 3 [5, 1, 2] = some (|r - 3|, r) ∧
      ([5, 1, 2] : List ℤ) = l₁ ++ r :: l₂ ∧
      (∀ x ∈ ([5, 1, 2] : List ℤ), |r - 3| ≤ |x - 3|) ∧
      (∀ x ∈ l₁, |r - 3| < |x - 3|) :=
  C10_sstf_tiebreak 3 [5, 1, 2] (by decide)

/-- C8: whenever the request set contains both boundary values 0 and
DISK_MAX (so the farthest pending request on each side coincides with the
disk boundary), the SCAN and LOOK totals of the Stats Calculator agree,
for every direction token. -/
theorem C8_scan_look_agree (reqs : List ℤ) (h : ℤ) (d : String)
    (hrange : ∀ r ∈ reqs, 0 ≤ r ∧ r ≤ DISK_MAX)
    (h0 : (0 : ℤ) ∈ reqs) (hM : DISK_MAX ∈ reqs)
    (hh0 : 0 ≤ h) (hhM : h ≤ DISK_MAX) :
    getAlgorithmStats "scan" reqs h d = getAlgorithmStats "look" reqs h d := by
  have hSs : (List.insertionSort (fun x1 x2 => x1 ≤ x2) (toSetList reqs)).Sorted (· ≤ ·) :=
    sortedReqs_sorted reqs
  have hRs : ((List.insertionSort (fun x1 x2 => x1 ≤ x2) (toSetList reqs)).filter
      (fun r => decide (h ≤ r))).Sorted (· ≤ ·) := hSs.filter _
  have hMR : DISK_MAX ∈ (List.insertionSort (fun x1 x2 => x1 ≤ x2) (toSetList reqs)).filter
      (fun r => decide (h ≤ r)) :=
    List.mem_filter.mpr ⟨mem_sortedReqs.mpr hM, by simpa using hhM⟩
  have hRlast : ((List.insertionSort (fun x1 x2 => x1 ≤ x2) (toSetList reqs)).filter
      (fun r => decide (h ≤ r))).getLast? = some DISK_MAX := by
    refine sorted_getLast?_eq hRs hMR ?_
    intro x hx
    exact (hrange x (mem_sortedReqs.mp (List.mem_filter.mp hx).1)).2
  by_cases hpos : 0 < h
  · have hLs : ((List.insertionSort (fun x1 x2 => x1 ≤ x2) (toSetList reqs)).filter
        (fun r => decide (r < h))).Sorted (· ≤ ·) := hSs.filter _
    have h0L : (0 : ℤ) ∈ (List.insertionSort (fun x1 x2 => x1 ≤ x2) (toSetList reqs)).filter
        (fun r => decide (r < h)) :=
      List.mem_filter.mpr ⟨mem_sortedReqs.mpr h0, by simpa using hpos⟩
    have hLhead : ((List.insertionSort (fun x1 x2 => x1 ≤ x2) (toSetList reqs)).filter
        (fun r => decide (r < h))).head? = some 0 := by
      refine sorted_head?_eq hLs h0L ?_
      intro x hx
      exact (hrange x (mem_sortedReqs.mp (List.mem_filter.mp hx).1)).1
    simp only [getAlgorithmStats, String.reduceEq, reduceIte]
    rw [hRlast, hLhead]
    by_cases hd : d = "right" <;> simp [hd]
  · have hzero : h = 0 := le_antisymm (not_lt.mp hpos) hh0
    subst hzero
    have hLnil : ((List.insertionSort (fun x1 x2 => x1 ≤ x2) (toSetList reqs)).filter
        (fun r => decide (r < 0))) = [] := by
      rw [List.filter_eq_nil_iff]
      intro x hx
      have := (hrange x (mem_sortedReqs.mp hx)).1
      simpa using not_lt.mpr this
    simp only [getAlgorithmStats, String.reduceEq, reduceIte]
    rw [hRlast, hLnil]
    by_cases hd : d = "right" <;> simp [hd]

/-- Witness for C8: requests `[0, 199, 50]`, startHead 53, direction
left. -/
theorem C8_scan_look_agree_witness :
    getAlgorithmStats "scan" [0, 199, 50] 53 "left"
      = getAlgorithmStats "look" [0, 199, 50] 53 "left" :=
  C8_scan_look_agree [0, 199, 50] 53 "left" (by decide) (by decide) (by decide)
    (by decide) (by decide)

/-- C1 (amended): for every algorithm among the six, every request list
with values in `[0, DISK_MAX]`, every startHead in `[0, DISK_MAX]` that is
not itself one of the requests, and every direction in {left, right}, the
final Step's cumulative seek of the Generator's run equals the total
returned by the Stats Calculator. -/
theorem C1_generator_stats_agree (alg : String) (reqs : List ℤ) (h : ℤ) (d : String)
    (halg : alg = "fcfs" ∨ alg = "sstf" ∨ alg = "scan" ∨ alg = "c-scan" ∨
      alg = "look" ∨ alg = "c-look")
    (hrange : ∀ r ∈ reqs, 0 ≤ r ∧ r ≤ DISK_MAX)
    (hh0 : 0 ≤ h) (hhM : h ≤ DISK_MAX)
    (hdirection : d = "left" ∨ d = "right")
    (hnm : h ∉ reqs) :
    totalSeekOf (calculateSimulationHistory alg reqs h d)
      = getAlgorithmStats alg reqs h d := by
  rcases halg with rfl | rfl | rfl | rfl | rfl | rfl
  · exact stats_fcfs_eq reqs h d
  · exact stats_sstf_eq reqs h d hnm
  · exact stats_scan_eq reqs h d hrange hh0 hhM hnm
  · exact stats_cscan_eq reqs h d hrange hh0 hhM hnm
  · exact stats_look_eq reqs h d hrange hh0 hhM hnm
  · exact stats_clook_eq reqs h d hrange hh0 hhM hnm

/-- Witness for C1: algorithm c-look, requests `[98, 183, 37]`, startHead
53, direction left. -/
theorem C1_generator_stats_agree_witness :
    totalSeekOf (calculateSimulationHistory "c-look" [98, 183, 37] 53 "left")
      = getAlgorithmStats "c-look" [98, 183, 37] 53 "left" :=
  C1_generator_stats_agree "c-look" [98, 183, 37] 53 "left"
    (Or.inr (Or.inr (Or.inr (Or.inr (Or.inr rfl))))) (by decide) (by decide)
    (by decide) (Or.inl rfl) (by decide)

/-- C3 (amended to duplicate-free request lists): for every algorithm
among the six and every well-formed duplicate-free input, consecutive
Steps of the run have non-decreasing cumulative seek, growing served set
and extended served order (`stepRel`), and every Step has a
duplicate-free `servedOrder` equal to its served set (its elements in
first-served order) with the head inside `[0, DISK_MAX]` (`stepOk`). -/
theorem C3_invariants (alg : String) (reqs : List ℤ) (h : ℤ) (d : String)
    (halg : alg = "fcfs" ∨ alg = "sstf" ∨ alg = "scan" ∨ alg = "c-scan" ∨
      alg = "look" ∨ alg = "c-look")
    (hne : reqs ≠ []) (hnd : reqs.Nodup)
    (hrange : ∀ r ∈ reqs, 0 ≤ r ∧ r ≤ DISK_MAX)
    (hh0 : 0 ≤ h) (hhM : h ≤ DISK_MAX)
    (hdirection : d = "left" ∨ d = "right") :
    List.Chain' stepRel (calculateSimulationHistory alg reqs h d) ∧
    ∀ s ∈ calculateSimulationHistory alg reqs h d, stepOk s := by
  rcases halg with rfl | rfl | rfl | rfl | rfl | rfl
  · exact good_run_fcfs reqs h d hnd hrange hh0 hhM
  · exact good_run_sstf reqs h d hrange hh0 hhM
  · exact good_run_scan reqs h d hrange hh0 hhM
  · exact good_run_cscan reqs h d hrange hh0 hhM
  · exact good_run_look reqs h d hrange hh0 hhM
  · exact good_run_clook reqs h d hrange hh0 hhM

/-- Witness for C3: algorithm c-scan, requests `[14, 37, 183]`, startHead
53, direction left. -/
theorem C3_invariants_witness :
    List.Chain' stepRel (calculateSimulationHistory "c-scan" [14, 37, 183] 53 "left") ∧
    ∀ s ∈ calculateSimulationHistory "c-scan" [14, 37, 183] 53 "left", stepOk s :=
  C3_invariants "c-scan" [14, 37, 183] 53 "left"
    (Or.inr (Or.inr (Or.inr (Or.inl rfl)))) (by decide) (by decide) (by decide)
    (by decide) (by decide) (Or.inl rfl)

end DiscMotion
